import Mathlib

/-!
Verification development for the StreamPro synthetic data generator
(`generate_data.py`).

The generator is embedded shallowly:

* Machine wall-clock time (`datetime.utcnow()`) is an explicit parameter
  `now : Int`, measured in seconds since the epoch; calendar dates are day
  numbers `now / 86400`.  ISO-8601 rendering of timestamps is injective and
  order preserving, so timestamps are kept as `Int` seconds.
* The two pseudo-random generators (`random`, seeded by `random.seed`, and
  `numpy.random`, seeded by `np.random.seed`) are modelled as two infinite
  draw streams `Nat → Nat` with cursors; seeding with a fixed seed fixes the
  streams, so a stream pair stands for one seed value.  A bounded draw
  `random.randint(a, b)` (inclusive on both ends, `ValueError` when `a > b`)
  maps the next raw draw into `[a, b]`; `random.choice` indexes the list by
  the next draw (`IndexError` on an empty sequence); `random.sample`
  repeatedly removes a drawn position; the Bernoulli test
  `random.random() < 0.12` and the unbounded nonnegative draws
  `np.random.poisson(1.8)` and `int(np.random.exponential(scale=12))` are
  read off the streams.  All claims are settled for arbitrary streams.
* Fallible Python code (exceptions) is embedded in `Except String`.
* The four output files are modelled as the four row lists they serialize;
  CSV/NDJSON rendering of distinct row lists is distinct.
-/

/-! ### Decimal rendering of numbers (Python `%d`, `%04d`, `%05d`) -/
/-- Little-endian decimal digits, with fuel; `digitsF (n+1) n` is total. -/
def digitsF : Nat → Nat → List Nat
  | 0, _ => []
  | f + 1, n => if n < 10 then [n] else n % 10 :: digitsF f (n / 10)

/-- Little-endian decimal digits of `n` (least significant first). -/
def natDigits (n : Nat) : List Nat := digitsF (n + 1) n

/-- The character of a decimal digit. -/
def digitChar : Nat → Char
  | 0 => '0' | 1 => '1' | 2 => '2' | 3 => '3' | 4 => '4'
  | 5 => '5' | 6 => '6' | 7 => '7' | 8 => '8' | _ => '9'

/-- Characters of `n` printed in decimal, zero-padded to width `w`
(Python f-string padding, no truncation when `n` is wider). -/
def padChars (w n : Nat) : List Char :=
  let ds := ((natDigits n).reverse).map digitChar
  List.replicate (w - ds.length) '0' ++ ds

/-- Python zero-padded decimal rendering of `n` to width `w`. -/
def pad (w n : Nat) : String := String.mk (padChars w n)

/-- Python decimal rendering of a nonnegative integer. -/
def decStr (n : Nat) : String := String.mk (((natDigits n).reverse).map digitChar)

/-- Decimal value of a character list (inverse of `padChars w`). -/
def decChars (l : List Char) : Nat := l.foldl (fun a c => a * 10 + (c.toNat - 48)) 0

/-- Python format string u_ followed by the 5-digit zero-padded index. -/
def mkUid (i : Nat) : String := String.mk ('u' :: '_' :: padChars 5 i)

/-- Python format string v_ followed by the 5-digit zero-padded index. -/
def mkVid (i : Nat) : String := String.mk ('v' :: '_' :: padChars 5 i)

/-- Python format string s_ then the user id, an underscore and the 4-digit zero-padded session index. -/
def mkSid (uid : String) (s : Nat) : String :=
  String.mk ('s' :: '_' :: (uid.data ++ '_' :: padChars 4 s))

/-! ### The pseudo-random state -/
/-- The state of the two seeded pseudo-random generators: the `random`
module stream `r` with cursor `ri`, and the `numpy.random` stream `g`
with cursor `gi`. -/
structure RState where
  r : Nat → Nat
  ri : Nat
  g : Nat → Nat
  gi : Nat

/-- Next raw draw from the `random` stream. -/
def draw (st : RState) : Nat × RState :=
  (st.r st.ri, ⟨st.r, st.ri + 1, st.g, st.gi⟩)

/-- Next raw draw from the `numpy.random` stream. -/
def drawG (st : RState) : Nat × RState :=
  (st.g st.gi, ⟨st.r, st.ri, st.g, st.gi + 1⟩)

/-- Python `random.randint(a, b)` when `a ≤ b` is known: a value in `[a, b]`. -/
def randintT (a b : Int) (st : RState) : Int × RState :=
  (a + ((draw st).1 % (b - a + 1).toNat : Nat), (draw st).2)

/-- Python `random.randint(a, b)`: raises `ValueError` when `a > b`. -/
def randint (a b : Int) (st : RState) : Except String (Int × RState) :=
  if a ≤ b then .ok (randintT a b st) else .error "ValueError: empty range for randrange"

/-- Python `random.choice(seq)`: raises `IndexError` on an empty sequence. -/
def choice {α : Type} : List α → RState → Except String (α × RState)
  | [], _ => .error "IndexError: cannot choose from an empty sequence"
  | a :: as, st =>
    .ok ((a :: as).get ⟨(draw st).1 % (as.length + 1), Nat.mod_lt _ (Nat.succ_pos _)⟩,
      (draw st).2)

/-- Python `random.choice` on a visibly nonempty literal list. -/
def choiceNE {α : Type} (a : α) (as : List α) (st : RState) : α × RState :=
  ((a :: as).get ⟨(draw st).1 % (as.length + 1), Nat.mod_lt _ (Nat.succ_pos _)⟩,
    (draw st).2)

/-- Python `random.random() < 0.12`, as a stream-driven Bernoulli event. -/
def bern (st : RState) : Bool × RState :=
  (decide ((draw st).1 % 100 < 12), (draw st).2)

/-- Python `random.sample(l, k)` for `k ≤ l.length`: draw `k` distinct positions
without replacement. -/
def sampleAux {α : Type} : Nat → List α → RState → List α × RState
  | 0, _, st => ([], st)
  | _ + 1, [], st => ([], st)
  | k + 1, a :: as, st =>
    let x := (draw st).1
    let st1 := (draw st).2
    let i := x % (as.length + 1)
    let chosen := (a :: as).get ⟨i, Nat.mod_lt _ (Nat.succ_pos _)⟩
    let rest := sampleAux k ((a :: as).eraseIdx i) st1
    (chosen :: rest.1, rest.2)

/-! ### Data model -/
/-- The `GeneratorConfig` of the source (the output directory is carried but
never inspected by any generator). -/
structure GeneratorConfig where
  out_dir : String
  days : Int
  users : Int
  videos : Int
  seed : Int
deriving DecidableEq

/-- One row of `users.csv`; `signup_date` is a calendar day number. -/
structure UserRow where
  user_id : String
  signup_date : Int
  subscription_tier : String
  age_group : String
  gender : String
deriving DecidableEq

/-- One row of `videos.csv`. -/
structure VideoRow where
  video_id : String
  title : String
  genre : String
  duration_seconds : Int
  patent_id : String
deriving DecidableEq

/-- One row of `devices.csv`. -/
structure DeviceRow where
  device : String
  device_model : String
  os_version : String
deriving DecidableEq

/-- The `event_name` field values. -/
inductive EventName
  | first_login | session_start | watch_time | like | heart | session_end
deriving DecidableEq, Inhabited

/-- One line of `events.jsonl`, fields in serialization order; `timestamp`
is in seconds. -/
structure Event where
  timestamp : Int
  account_id : String
  user_id : String
  video_id : Option String
  session_id : String
  event_name : EventName
  value : Option Int
  device : String
  device_os : String
  app_version : String
  network_type : String
  ip : String
  country : String
deriving DecidableEq, Inhabited

/-- The session-scoped attributes drawn once per session. -/
structure SessCtx where
  account_id : String
  uid : String
  sid : String
  device : String
  device_os : String
  app_version : String
  network_type : String
  ip : String
  country : String

/-- Build one event row from the session context. -/
def mkEvent (ctx : SessCtx) (ts : Int) (vid : Option String) (name : EventName)
    (val : Option Int) : Event :=
  ⟨ts, ctx.account_id, ctx.uid, vid, ctx.sid, name, val, ctx.device, ctx.device_os,
    ctx.app_version, ctx.network_type, ctx.ip, ctx.country⟩

/-! ### Reference-table generators -/
/-- Loop body of `generate_users` over the user indices. -/
def usersLoop (days today : Int) : List Nat → RState → Except String (List UserRow × RState)
  | [], st => .ok ([], st)
  | i :: is, st =>
    match randint 1 (days + 7) st with
    | .error m => .error m
    | .ok (k, st1) =>
      let tier := choiceNE "free" ["basic", "premium"] st1
      let age := choiceNE "18-24" ["25-34", "35-44", "45-54", "55+"] tier.2
      let gen := choiceNE "female" ["male", "other", "prefer_not_to_say"] age.2
      match usersLoop days today is gen.2 with
      | .error m => .error m
      | .ok (rest, st2) =>
        .ok (⟨mkUid i, today - k, tier.1, age.1, gen.1⟩ :: rest, st2)

/-- Source function `generate_users`. -/
def generate_users (cfg : GeneratorConfig) (now : Int) (st : RState) :
    Except String (List UserRow × RState) :=
  usersLoop cfg.days (now / 86400) (List.range cfg.users.toNat) st

/-- Loop body of `generate_videos` over the video indices. -/
def videosLoop : List Nat → RState → List VideoRow × RState
  | [], st => ([], st)
  | i :: is, st =>
    let genre := choiceNE "drama"
      ["comedy", "documentary", "action", "horror", "sci-fi", "fantasy", "romance"] st
    let dur := randintT 30 3600 genre.2
    let pat := randintT 1000 9999 dur.2
    let rest := videosLoop is pat.2
    (⟨mkVid i, "Video " ++ decStr i, genre.1, dur.1, "pat_" ++ decStr pat.1.toNat⟩ :: rest.1,
      rest.2)

/-- Source function `generate_videos`. -/
def generate_videos (cfg : GeneratorConfig) (st : RState) : List VideoRow × RState :=
  videosLoop (List.range cfg.videos.toNat) st

/-- Source function `generate_devices`: the fixed 3 × 5 × 4 cross product. -/
def generate_devices : List DeviceRow :=
  (["mobile", "tablet", "desktop"].map fun d =>
    (["A1", "A2", "B1", "B2", "C1"].map fun m =>
      (["iOS 16", "Android 13", "Windows 11", "macOS 14"].map fun o =>
        DeviceRow.mk d m o)).flatten).flatten

/-! ### Event-stream generator -/
/-- The per-chunk loop of `generate_events`: per chunk, advance the local
time pointer by `randint(1, 50)` seconds, draw the watch value
`int(np.random.exponential(scale=12)) + 1`, emit `watch_time`, and with
probability 0.12 emit a `like`/`heart` one second later.  Returns the
emitted events, the accumulated watch seconds, and the state. -/
def chunkLoop (ctx : SessCtx) (watched : List String) :
    Nat → Int → Int → RState → Except String (List Event × Int × RState)
  | 0, _, acc, st => .ok ([], acc, st)
  | n + 1, t, acc, st =>
    let inc := randintT 1 50 st
    let t1 := t + inc.1
    let ex := drawG inc.2
    let value : Int := (ex.1 : Int) + 1
    let acc1 := acc + value
    match choice watched ex.2 with
    | .error m => .error m
    | .ok (v, st1) =>
      let wEv := mkEvent ctx t1 (some v) .watch_time (some value)
      let b := bern st1
      if b.1 then
        match choice watched b.2 with
        | .error m => .error m
        | .ok (v2, st2) =>
          let lh := choiceNE EventName.like [EventName.heart] st2
          let eEv := mkEvent ctx (t1 + 1) (some v2) lh.1 none
          match chunkLoop ctx watched n t1 acc1 lh.2 with
          | .error m => .error m
          | .ok (rest, accOut, stOut) => .ok (wEv :: eEv :: rest, accOut, stOut)
      else
        match chunkLoop ctx watched n t1 acc1 b.2 with
        | .error m => .error m
        | .ok (rest, accOut, stOut) => .ok (wEv :: rest, accOut, stOut)

/-- One iteration of the session loop of `generate_events`: draw the
session-scoped attributes, emit `first_login` on the user's first session,
`session_start`, the watch chunks, and `session_end`; returns the events,
the next session cursor (session end plus the `randint(10, 600)`-minute
gap), and the state. -/
def sessionBody (videoIds : List String) (ctx : SessCtx) (sessionTime : Int)
    (firstLoginEmitted : Bool) (st : RState) : Except String (List Event × Int × RState) :=
  let flpart : List Event :=
    if firstLoginEmitted then []
    else [mkEvent ctx (sessionTime - 300) none .first_login none]
  let startEv := mkEvent ctx sessionTime none .session_start none
  let nc := randintT 1 10 st
  let kd := randintT 1 4 nc.2
  let sampled := sampleAux (min videoIds.length kd.1.toNat) videoIds kd.2
  match chunkLoop ctx sampled.1 nc.1.toNat sessionTime 0 sampled.2 with
  | .error m => .error m
  | .ok (chunkEvs, watchSecs, st1) =>
    let slack := randintT 0 60 st1
    let endTime := sessionTime + watchSecs + slack.1
    let endEv := mkEvent ctx endTime none .session_end none
    let gap := randintT 10 600 slack.2
    .ok (flpart ++ startEv :: (chunkEvs ++ [endEv]), endTime + gap.1 * 60, gap.2)

def genSession (videoIds : List String) (uid : String) (s : Nat) (sessionTime : Int)
    (firstLoginEmitted : Bool) (st : RState) : Except String (List Event × Int × RState) :=
  let ac := choiceNE "acct_1" ["acct_2", "acct_3"] st
  let sid := mkSid uid s
  let dev := choiceNE "mobile" ["tablet", "desktop"] ac.2
  let dos := choiceNE "iOS" ["Android", "Windows", "macOS"] dev.2
  let appv := choiceNE "1.0.0" ["1.1.0", "1.2.0", "2.0.0", "2.1.0"] dos.2
  let net := choiceNE "wifi" ["4G", "5G"] appv.2
  let o1 := randintT 0 255 net.2
  let o2 := randintT 0 255 o1.2
  let o3 := randintT 1 254 o2.2
  let ip := "10." ++ decStr o1.1.toNat ++ "." ++ decStr o2.1.toNat ++ "." ++ decStr o3.1.toNat
  let co := choiceNE "US" ["CA", "GB", "DE", "FR", "BR", "IN", "AU", "JP"] o3.2
  let ctx : SessCtx := ⟨ac.1, uid, sid, dev.1, dos.1, appv.1, net.1, ip, co.1⟩
  sessionBody videoIds ctx sessionTime firstLoginEmitted co.2

/-- The per-user session loop: `count` remaining sessions, starting at
session index `s` and cursor `time`. -/
def sessionLoop (videoIds : List String) (uid : String) :
    Nat → Nat → Int → Bool → RState → Except String (List Event × Int × RState)
  | 0, _, time, _, st => .ok ([], time, st)
  | n + 1, s, time, fl, st =>
    match genSession videoIds uid s time fl st with
    | .error m => .error m
    | .ok (evs, time1, st1) =>
      match sessionLoop videoIds uid n (s + 1) time1 true st1 with
      | .error m => .error m
      | .ok (rest, timeF, stF) => .ok (evs ++ rest, timeF, stF)

/-- The per-user body of `generate_events`: draw the session count
`np.random.poisson(lam=1.8) + 1`, the initial cursor
`base_dt + randint(0, days*24)` hours, and run the session loop. -/
def genUser (days base : Int) (videoIds : List String) (uid : String) (st : RState) :
    Except String (List Event × RState) :=
  let p := drawG st
  let numSessions := p.1 + 1
  match randint 0 (days * 24) p.2 with
  | .error m => .error m
  | .ok (off, st1) =>
    match sessionLoop videoIds uid numSessions 0 (base + off * 3600) false st1 with
    | .error m => .error m
    | .ok (evs, _, stF) => .ok (evs, stF)

/-- The user loop of `generate_events`. -/
def eventsLoop (days base : Int) (videoIds : List String) :
    List String → RState → Except String (List Event × RState)
  | [], st => .ok ([], st)
  | uid :: rest, st =>
    match genUser days base videoIds uid st with
    | .error m => .error m
    | .ok (evs, st1) =>
      match eventsLoop days base videoIds rest st1 with
      | .error m => .error m
      | .ok (evsR, stF) => .ok (evs ++ evsR, stF)

/-- Source function `generate_events`; `base_dt = utcnow() - timedelta(days=cfg.days)`. -/
def generate_events (cfg : GeneratorConfig) (now : Int) (userIds videoIds : List String)
    (st : RState) : Except String (List Event × RState) :=
  eventsLoop cfg.days (now - cfg.days * 86400) videoIds userIds st

/-- The four generated outputs: the in-memory contents of `users.csv`,
`videos.csv`, `devices.csv` and `events.jsonl`. -/
structure Outputs where
  users : List UserRow
  videos : List VideoRow
  devices : List DeviceRow
  events : List Event
deriving DecidableEq

/-- Source function `write_outputs`: seed the generators (the streams in the incoming state
stand for the seeded sequences), build the four tables in order, and
serialize them.  Any uncaught exception aborts the run with no output
value. -/
def write_outputs (cfg : GeneratorConfig) (now : Int) (st : RState) :
    Except String Outputs :=
  match generate_users cfg now st with
  | .error m => .error m
  | .ok (users, st1) =>
    let vids := generate_videos cfg st1
    let devices := generate_devices
    match generate_events cfg now (users.map (fun u => u.user_id))
        ((vids.1).map (fun v => v.video_id)) vids.2 with
    | .error m => .error m
    | .ok (events, _) => .ok ⟨users, vids.1, devices, events⟩

/-! ### Derived event-log observables -/
/-- Sum of the `value` fields of the `watch_time` events of a list
(the Python `session_watch_seconds` accumulator over that list). -/
def watchSum (l : List Event) : Int :=
  (l.filter (fun e => e.event_name == EventName.watch_time)).foldr
    (fun e a => e.value.getD 0 + a) 0

/-- Engagement adjacency step: if the second of two adjacent events is a
`like`/`heart`, the first is a `watch_time` of the same session one second
earlier. -/
def engStep (a b : Event) : Prop :=
  (b.event_name = .like ∨ b.event_name = .heart) →
    (a.event_name = .watch_time ∧ a.session_id = b.session_id ∧
      b.timestamp = a.timestamp + 1)

/-- The events of session `sid` inside a log, in emission order. -/
def sessEvents (log : List Event) (sid : String) : List Event :=
  log.filter (fun e => e.session_id == sid)

/-- Session-start timestamps of a log, in emission order. -/
def startsTs (l : List Event) : List Int :=
  (l.filter (fun e => e.event_name == EventName.session_start)).map (fun e => e.timestamp)

/-- Session-end timestamps of a log, in emission order. -/
def endsTs (l : List Event) : List Int :=
  (l.filter (fun e => e.event_name == EventName.session_end)).map (fun e => e.timestamp)

/-! ### The chunk loop: shape of the emitted watch/engagement events -/
/-- What holds of every event emitted by the chunk loop entered at local
time `t`. -/
def ChunkEv (ctx : SessCtx) (watched : List String) (t : Int) (e : Event) : Prop :=
  e.session_id = ctx.sid ∧ e.user_id = ctx.uid ∧
  (e.event_name = .watch_time ∨ e.event_name = .like ∨ e.event_name = .heart) ∧
  (∃ v ∈ watched, e.video_id = some v) ∧
  (e.event_name = .watch_time → ∃ w, e.value = some w ∧ 1 ≤ w) ∧
  (e.event_name ≠ .watch_time → e.value = none) ∧
  t + 1 ≤ e.timestamp

/-- Everything `sessionBody` guarantees about one emitted session block. -/
def SessSpec (videoIds : List String) (ctx : SessCtx) (time : Int) (fl : Bool)
    (evs : List Event) (next : Int) : Prop :=
  ∃ (watched : List String) (mid : List Event) (endT gap slack : Int),
    watched ⊆ videoIds ∧ watched.length ≤ 4 ∧
    evs = (if fl then ([] : List Event)
        else [mkEvent ctx (time - 300) none .first_login none]) ++
      mkEvent ctx time none .session_start none ::
        (mid ++ [mkEvent ctx endT none .session_end none]) ∧
    (∀ e ∈ mid, ChunkEv ctx watched time e) ∧
    List.Chain' (fun a b => a.timestamp ≤ b.timestamp) mid ∧
    List.Chain' engStep mid ∧
    (∀ e ∈ mid.head?, e.event_name = .watch_time) ∧
    0 ≤ slack ∧ slack ≤ 60 ∧ endT = time + watchSum mid + slack ∧
    time ≤ endT ∧
    1 ≤ (mid.filter (fun e => e.event_name == EventName.watch_time)).length ∧
    (mid.filter (fun e => e.event_name == EventName.watch_time)).length ≤ 10 ∧
    10 ≤ gap ∧ gap ≤ 600 ∧ next = endT + gap * 60

/-! ### Per-block consequences of `SessSpec` -/
/-- The claim-ready shape of the events carrying one session id. -/
def SidGood (vids : List String) (l : List Event) : Prop :=
  ∃ (flpart : List Event) (stEv endEv : Event) (mid : List Event),
    l = flpart ++ stEv :: (mid ++ [endEv]) ∧
    (flpart = [] ∨ ∃ flEv, flpart = [flEv] ∧ flEv.event_name = .first_login ∧
      flEv.timestamp = stEv.timestamp - 300) ∧
    stEv.event_name = .session_start ∧ endEv.event_name = .session_end ∧
    (∀ e ∈ mid,
      (e.event_name = .watch_time ∨ e.event_name = .like ∨ e.event_name = .heart) ∧
      stEv.timestamp + 1 ≤ e.timestamp) ∧
    List.Chain' (fun a b => a.timestamp ≤ b.timestamp) mid ∧
    (∃ slack, 0 ≤ slack ∧ slack ≤ 60 ∧
      endEv.timestamp = stEv.timestamp + watchSum mid + slack) ∧
    stEv.timestamp ≤ endEv.timestamp ∧
    1 ≤ (mid.filter (fun e => e.event_name == EventName.watch_time)).length ∧
    (mid.filter (fun e => e.event_name == EventName.watch_time)).length ≤ 10 ∧
    (∃ ws, ws ⊆ vids ∧ ws.length ≤ 4 ∧ ∀ e ∈ mid, ∃ v ∈ ws, e.video_id = some v)

/-! ### Chronology of the per-user session loop -/
/-- The start/end timestamp pairs of successive sessions of one user:
the first session starts at the cursor, each session ends no earlier than
it starts, and the next session starts at the end plus a
`randint(10, 600)`-minute gap. -/
def chrono : Int → List (Int × Int) → Prop
  | _, [] => True
  | t, p :: rest => p.1 = t ∧ p.1 ≤ p.2 ∧ ∃ g, 10 ≤ g ∧ g ≤ 600 ∧ chrono (p.2 + g * 60) rest

/-- The per-user shape every user block has: one leading `first_login`,
then the first `session_start` five minutes later, and chronologically
ordered non-overlapping sessions. -/
def UserShape (l : List Event) : Prop :=
  (∃ flEv stEv rest, l = flEv :: stEv :: rest ∧ flEv.event_name = .first_login ∧
    stEv.event_name = .session_start ∧ stEv.timestamp = flEv.timestamp + 300 ∧
    ∀ e ∈ rest, e.event_name ≠ .first_login) ∧
  ∃ (t0 : Int) (ps : List (Int × Int)), startsTs l = ps.map Prod.fst ∧
    endsTs l = ps.map Prod.snd ∧ chrono t0 ps

/-! ### Concrete runs used as witnesses and counterexamples -/
deriving instance DecidableEq for Except

def stA : RState := ⟨fun _ => 0, 0, fun _ => 0, 0⟩

def cfgA : GeneratorConfig := ⟨"data", 1, 1, 1, 42⟩

def nowA : Int := 86400 * 20000

def outA : Outputs := ((write_outputs cfgA nowA stA).toOption).getD ⟨[], [], [], []⟩

def st4 : RState := ⟨fun i => if i == 7 then 168 else 0, 0, fun _ => 0, 0⟩

def cfg4 : GeneratorConfig := ⟨"data", 7, 1, 1, 42⟩

def out4 : Outputs := ((write_outputs cfg4 nowA st4).toOption).getD ⟨[], [], [], []⟩

/-- The first event of the concrete run (its `first_login`). -/
def eW0 : Event := outA.events.getD 0 default

/-- The last event of the concrete run (its `session_end`). -/
def eW4 : Event := outA.events.getD 4 default

/-! ### Decimal rendering: correctness and injectivity -/
theorem digitsF_lt : ∀ (f n : Nat), ∀ d ∈ digitsF f n, d < 10 := by
  intro f
  induction f with
  | zero => intro n d hd; simp [digitsF] at hd
  | succ f ih =>
    intro n d hd
    by_cases h : n < 10
    · simp [digitsF, h] at hd; omega
    · simp [digitsF, h] at hd
      rcases hd with h1 | h2
      · omega
      · exact ih _ _ h2

theorem digitsF_val : ∀ (f n : Nat), n < f →
    (digitsF f n).foldr (fun d a => a * 10 + d) 0 = n := by
  intro f
  induction f with
  | zero => intro n h; omega
  | succ f ih =>
    intro n h
    by_cases h10 : n < 10
    · simp [digitsF, h10]
    · have hpos : 1 ≤ n := by omega
      have hdiv : n / 10 < n := Nat.div_lt_self hpos (by omega)
      have : n / 10 < f := by omega
      simp [digitsF, h10, ih _ this]
      omega

theorem digitChar_val : ∀ d < 10, (digitChar d).toNat - 48 = d := by decide

theorem digitChar_ne_underscore : ∀ d < 10, digitChar d ≠ '_' := by decide

theorem foldr_digits (ds : List Nat) (h : ∀ d ∈ ds, d < 10) :
    ds.foldr (fun d a => a * 10 + ((digitChar d).toNat - 48)) 0 =
      ds.foldr (fun d a => a * 10 + d) 0 := by
  induction ds with
  | nil => rfl
  | cons d ds ih =>
    have hd : d < 10 := h d (by simp)
    have ihh := ih (fun x hx => h x (by simp [hx]))
    simp [ihh, digitChar_val d hd]

theorem foldl_replicate_zero (k : Nat) :
    List.foldl (fun a c => a * 10 + (c.toNat - 48)) 0 (List.replicate k '0') = 0 := by
  induction k with
  | zero => rfl
  | succ k ih => simpa [List.replicate_succ] using ih

theorem decChars_padChars (w n : Nat) : decChars (padChars w n) = n := by
  unfold decChars padChars
  rw [List.foldl_append, foldl_replicate_zero, List.foldl_map, List.foldl_reverse]
  have h1 := foldr_digits (natDigits n) (digitsF_lt (n + 1) n)
  have h2 := digitsF_val (n + 1) n (Nat.lt_succ_self n)
  simpa [natDigits] using h1.trans h2

theorem padChars_inj {w a b : Nat} (h : padChars w a = padChars w b) : a = b := by
  have ha := decChars_padChars w a
  have hb := decChars_padChars w b
  rw [h] at ha
  omega

theorem padChars_ne_underscore (w n : Nat) : ∀ c ∈ padChars w n, c ≠ '_' := by
  intro c hc
  unfold padChars at hc
  simp at hc
  rcases hc with h1 | h2
  · rw [h1.2]; decide
  · obtain ⟨d, hd, hdc⟩ := h2
    have : d < 10 := digitsF_lt _ _ d (by simpa [natDigits] using hd)
    rw [← hdc]
    exact digitChar_ne_underscore d this

theorem split_underscore :
    ∀ (l1 : List Char) (r1 l2 r2 : List Char), (∀ c ∈ l1, c ≠ '_') → (∀ c ∈ l2, c ≠ '_') →
      l1 ++ '_' :: r1 = l2 ++ '_' :: r2 → l1 = l2 ∧ r1 = r2 := by
  intro l1
  induction l1 with
  | nil =>
    intro r1 l2 r2 _ h2 heq
    cases l2 with
    | nil => simpa using heq
    | cons c l2t =>
      exfalso
      simp at heq
      exact h2 c (by simp) heq.1.symm
  | cons c l1t ih =>
    intro r1 l2 r2 h1 h2 heq
    cases l2 with
    | nil =>
      exfalso
      simp at heq
      exact h1 c (by simp) heq.1
    | cons c2 l2t =>
      simp at heq
      obtain ⟨hc, htl⟩ := heq
      have := ih r1 l2t r2 (fun x hx => h1 x (by simp [hx])) (fun x hx => h2 x (by simp [hx])) htl
      exact ⟨by simp [hc, this.1], this.2⟩

theorem mkUid_inj {i j : Nat} (h : mkUid i = mkUid j) : i = j := by
  unfold mkUid at h
  have := congrArg String.data h
  simp at this
  exact padChars_inj this

theorem mkSid_inj {i j s t : Nat} (h : mkSid (mkUid i) s = mkSid (mkUid j) t) :
    i = j ∧ s = t := by
  unfold mkSid mkUid at h
  have hdat := congrArg String.data h
  simp at hdat
  have := split_underscore _ _ _ _ (padChars_ne_underscore 5 i) (padChars_ne_underscore 5 j) hdat
  exact ⟨padChars_inj this.1, padChars_inj this.2⟩

theorem mkSid_same_uid_inj {uid : String} {s t : Nat} (h : mkSid uid s = mkSid uid t) :
    s = t := by
  unfold mkSid at h
  have hdat := congrArg String.data h
  simp at hdat
  exact padChars_inj hdat

/-! ### Bounds of the random primitives -/
theorem randintT_bounds {a b : Int} (st : RState) (h : a ≤ b) :
    a ≤ (randintT a b st).1 ∧ (randintT a b st).1 ≤ b := by
  have hpos : 0 < (b - a + 1).toNat := by omega
  have hlt : (draw st).1 % (b - a + 1).toNat < (b - a + 1).toNat := Nat.mod_lt _ hpos
  have h2 : (((draw st).1 % (b - a + 1).toNat : Nat) : Int) < ((b - a + 1).toNat : Int) := by
    exact_mod_cast hlt
  have h3 : (0 : Int) ≤ (((draw st).1 % (b - a + 1).toNat : Nat) : Int) := Int.ofNat_nonneg _
  unfold randintT
  constructor
  · omega
  · omega

theorem choice_mem {α : Type} {l : List α} {st : RState} {v : α} {st' : RState}
    (h : choice l st = .ok (v, st')) : v ∈ l := by
  cases l with
  | nil => simp [choice] at h
  | cons a as =>
    simp only [choice, Except.ok.injEq, Prod.mk.injEq] at h
    rw [← h.1]
    exact List.get_mem _ _ _

theorem choiceNE_mem {α : Type} (a : α) (as : List α) (st : RState) :
    (choiceNE a as st).1 ∈ a :: as := by
  unfold choiceNE
  exact List.get_mem _ _ _

theorem eraseIdx_sub {α : Type} : ∀ (l : List α) (i : Nat), l.eraseIdx i ⊆ l := by
  intro l
  induction l with
  | nil => intro i; simp [List.eraseIdx]
  | cons a as ih =>
    intro i
    cases i with
    | zero =>
      simp only [List.eraseIdx]
      exact List.subset_cons_self a as
    | succ j =>
      simp only [List.eraseIdx]
      intro x hx
      rcases List.mem_cons.mp hx with h1 | h2
      · simp [h1]
      · exact List.mem_cons_of_mem a (ih j h2)

theorem sampleAux_subset {α : Type} :
    ∀ (k : Nat) (l : List α) (st : RState), (sampleAux k l st).1 ⊆ l := by
  intro k
  induction k with
  | zero => intro l st; simp [sampleAux]
  | succ k ih =>
    intro l st
    cases l with
    | nil => simp [sampleAux]
    | cons a as =>
      simp only [sampleAux]
      intro x hx
      rcases List.mem_cons.mp hx with h1 | h2
      · rw [h1]; exact List.get_mem _ _ _
      · exact eraseIdx_sub _ _ (ih _ _ h2)

theorem sampleAux_length {α : Type} :
    ∀ (k : Nat) (l : List α) (st : RState), (sampleAux k l st).1.length ≤ k := by
  intro k
  induction k with
  | zero => intro l st; simp [sampleAux]
  | succ k ih =>
    intro l st
    cases l with
    | nil => simp [sampleAux]
    | cons a as =>
      simp only [sampleAux, List.length_cons]
      exact Nat.succ_le_succ (ih _ _)

theorem sampleAux_ne_nil {α : Type} (k : Nat) (l : List α) (st : RState)
    (hk : 1 ≤ k) (hl : l ≠ []) : (sampleAux k l st).1 ≠ [] := by
  cases k with
  | zero => omega
  | succ k =>
    cases l with
    | nil => exact absurd rfl hl
    | cons a as => simp [sampleAux]

theorem ChunkEv.mono {ctx watched} {t t' : Int} {e : Event} (h : ChunkEv ctx watched t' e)
    (ht : t ≤ t') : ChunkEv ctx watched t e := by
  obtain ⟨h1, h2, h3, h4, h5, h6, h7⟩ := h
  exact ⟨h1, h2, h3, h4, h5, h6, by omega⟩

theorem chunkLoop_spec (ctx : SessCtx) (watched : List String) :
    ∀ (n : Nat) (t acc : Int) (st : RState) (evs : List Event) (accOut : Int) (stOut : RState),
      chunkLoop ctx watched n t acc st = .ok (evs, accOut, stOut) →
      (∀ e ∈ evs, ChunkEv ctx watched t e) ∧
      List.Chain' (fun a b => a.timestamp ≤ b.timestamp) evs ∧
      List.Chain' engStep evs ∧
      (∀ e ∈ evs.head?, e.event_name = .watch_time) ∧
      accOut = acc + watchSum evs ∧
      (evs.filter (fun e => e.event_name == EventName.watch_time)).length = n := by
  intro n
  induction n with
  | zero =>
    intro t acc st evs accOut stOut h
    simp only [chunkLoop, Except.ok.injEq, Prod.mk.injEq] at h
    obtain ⟨h1, h2, h3⟩ := h
    subst h1; subst h2
    simp [watchSum]
  | succ n ih =>
    intro t acc st evs accOut stOut h
    simp only [chunkLoop] at h
    have hinc := (randintT_bounds (a := 1) (b := 50) st (by omega)).1
    cases hch : choice watched (drawG (randintT 1 50 st).2).2 with
    | error m => rw [hch] at h; dsimp only at h; exact absurd h (by simp)
    | ok p =>
      obtain ⟨v, st1⟩ := p
      rw [hch] at h
      dsimp only at h
      have hv : v ∈ watched := choice_mem hch
      by_cases hb : (bern st1).1
      · rw [if_pos hb] at h
        cases hch2 : choice watched (bern st1).2 with
        | error m => rw [hch2] at h; dsimp only at h; exact absurd h (by simp)
        | ok p2 =>
          obtain ⟨v2, st2⟩ := p2
          rw [hch2] at h
          dsimp only at h
          have hv2 : v2 ∈ watched := choice_mem hch2
          cases hrec : chunkLoop ctx watched n (t + (randintT 1 50 st).1)
              (acc + ((drawG (randintT 1 50 st).2).1 + 1))
              (choiceNE EventName.like [EventName.heart] st2).2 with
          | error m => rw [hrec] at h; dsimp only at h; exact absurd h (by simp)
          | ok q =>
            obtain ⟨rest, accOut', stOut'⟩ := q
            rw [hrec] at h
            dsimp only at h
            simp only [Except.ok.injEq, Prod.mk.injEq] at h
            obtain ⟨hevs, hacc, hst⟩ := h
            obtain ⟨ihm, ihc, ihe, ihh, ihacc, ihcnt⟩ := ih _ _ _ _ _ _ hrec
            have hlh : (choiceNE EventName.like [EventName.heart] st2).1 = EventName.like ∨
                (choiceNE EventName.like [EventName.heart] st2).1 = EventName.heart := by
              have := choiceNE_mem EventName.like [EventName.heart] st2
              simpa using this
            subst hevs
            constructor
            · intro e he
              rcases List.mem_cons.mp he with rfl | he2
              · refine ⟨rfl, rfl, Or.inl rfl, ⟨v, hv, rfl⟩, ?_, ?_, ?_⟩
                · intro _
                  refine ⟨(drawG (randintT 1 50 st).2).1 + 1, rfl, by omega⟩
                · intro hne; exact absurd rfl hne
                · simp [mkEvent]; omega
              rcases List.mem_cons.mp he2 with rfl | he3
              · refine ⟨rfl, rfl, ?_, ⟨v2, hv2, rfl⟩, ?_, ?_, ?_⟩
                · rcases hlh with h' | h' <;> simp [mkEvent, h']
                · intro hw
                  exfalso
                  rcases hlh with h' | h' <;> simp [mkEvent, h'] at hw
                · intro _; rfl
                · simp [mkEvent]; omega
              · exact (ihm e he3).mono (by omega)
            refine ⟨?_, ?_, ?_, ?_, ?_⟩
            · rw [List.chain'_cons']
              refine ⟨?_, ?_⟩
              · intro y hy
                simp at hy
                simp [← hy, mkEvent]
              rw [List.chain'_cons']
              refine ⟨?_, ihc⟩
              intro y hy
              have hyr : y ∈ rest := List.mem_of_mem_head? hy
              have := (ihm y hyr).2.2.2.2.2.2
              simp [mkEvent]
              omega
            · rw [List.chain'_cons']
              refine ⟨?_, ?_⟩
              · intro y hy
                simp at hy
                intro _
                rcases hy with rfl
                exact ⟨rfl, rfl, by simp [mkEvent]⟩
              rw [List.chain'_cons']
              refine ⟨?_, ihe⟩
              intro y hy
              intro hyeng
              exfalso
              have := ihh y hy
              rcases hyeng with h' | h' <;> rw [this] at h' <;> exact EventName.noConfusion h'
            · intro e he
              simp at he
              simp [← he, mkEvent]
            · rw [← hacc, ihacc]
              rcases hlh with h' | h' <;>
                (simp [watchSum, List.filter_cons, mkEvent, h']; omega)
            · rw [← ihcnt]
              simp [List.filter_cons, mkEvent]
              rcases hlh with h' | h' <;> simp [h']
      · rw [if_neg hb] at h
        cases hrec : chunkLoop ctx watched n (t + (randintT 1 50 st).1)
            (acc + ((drawG (randintT 1 50 st).2).1 + 1)) (bern st1).2 with
        | error m => rw [hrec] at h; dsimp only at h; exact absurd h (by simp)
        | ok q =>
          obtain ⟨rest, accOut', stOut'⟩ := q
          rw [hrec] at h
          dsimp only at h
          simp only [Except.ok.injEq, Prod.mk.injEq] at h
          obtain ⟨hevs, hacc, hst⟩ := h
          obtain ⟨ihm, ihc, ihe, ihh, ihacc, ihcnt⟩ := ih _ _ _ _ _ _ hrec
          subst hevs
          constructor
          · intro e he
            rcases List.mem_cons.mp he with rfl | he2
            · refine ⟨rfl, rfl, Or.inl rfl, ⟨v, hv, rfl⟩, ?_, ?_, ?_⟩
              · intro _
                refine ⟨(drawG (randintT 1 50 st).2).1 + 1, rfl, by omega⟩
              · intro hne; exact absurd rfl hne
              · simp [mkEvent]; omega
            · exact (ihm e he2).mono (by omega)
          refine ⟨?_, ?_, ?_, ?_, ?_⟩
          · rw [List.chain'_cons']
            refine ⟨?_, ihc⟩
            intro y hy
            have hyr : y ∈ rest := List.mem_of_mem_head? hy
            have := (ihm y hyr).2.2.2.2.2.2
            simp [mkEvent]
            omega
          · rw [List.chain'_cons']
            refine ⟨?_, ihe⟩
            intro y hy
            intro hyeng
            exfalso
            have := ihh y hy
            rcases hyeng with h' | h' <;> rw [this] at h' <;> exact EventName.noConfusion h'
          · intro e he
            simp at he
            simp [← he, mkEvent]
          · rw [← hacc, ihacc]
            simp [watchSum, List.filter_cons, mkEvent]
            omega
          · rw [← ihcnt]
            simp [List.filter_cons, mkEvent]

theorem watchSum_nonneg {ctx : SessCtx} {watched : List String} {t : Int} {l : List Event}
    (h : ∀ e ∈ l, ChunkEv ctx watched t e) : 0 ≤ watchSum l := by
  induction l with
  | nil => simp [watchSum]
  | cons e l ih =>
    have ihh := ih (fun x hx => h x (List.mem_cons_of_mem _ hx))
    have he := h e (by simp)
    by_cases hw : e.event_name = EventName.watch_time
    · obtain ⟨w, hv, hw1⟩ := he.2.2.2.2.1 hw
      simp only [watchSum, List.filter_cons, hw, beq_self_eq_true, if_true, List.foldr_cons]
      simp only [watchSum] at ihh
      rw [hv]
      simp only [Option.getD_some]
      omega
    · simp only [watchSum, List.filter_cons]
      rw [if_neg (by simpa using hw)]
      simpa [watchSum] using ihh

theorem sessionBody_spec {videoIds : List String} {ctx : SessCtx} {time : Int} {fl : Bool}
    {st : RState} {evs : List Event} {next : Int} {st' : RState}
    (h : sessionBody videoIds ctx time fl st = .ok (evs, next, st')) :
    SessSpec videoIds ctx time fl evs next := by
  simp only [sessionBody] at h
  split at h
  · exact absurd h (by simp)
  · rename_i chunkEvs watchSecs st1 heq
    simp only [Except.ok.injEq, Prod.mk.injEq] at h
    obtain ⟨hevs, hnext, hstf⟩ := h
    obtain ⟨hm, hc, he, hh, hacc, hcnt⟩ := chunkLoop_spec _ _ _ _ _ _ _ _ _ heq
    have hnc := randintT_bounds (a := 1) (b := 10) st (by omega)
    have hkd := randintT_bounds (a := 1) (b := 4) (randintT 1 10 st).2 (by omega)
    have hsl := randintT_bounds (a := 0) (b := 60) st1 (by omega)
    have hgap := randintT_bounds (a := 10) (b := 600) (randintT 0 60 st1).2 (by omega)
    refine ⟨_, chunkEvs, time + watchSecs + (randintT 0 60 st1).1,
      (randintT 10 600 (randintT 0 60 st1).2).1, (randintT 0 60 st1).1,
      sampleAux_subset _ _ _, ?_, ?_, hm, hc, he, hh, hsl.1, hsl.2, ?_, ?_, ?_, ?_,
      hgap.1, hgap.2, ?_⟩
    · calc (sampleAux (min videoIds.length
            (randintT 1 4 (randintT 1 10 st).2).1.toNat) videoIds
            (randintT 1 4 (randintT 1 10 st).2).2).1.length
          ≤ min videoIds.length (randintT 1 4 (randintT 1 10 st).2).1.toNat :=
            sampleAux_length _ _ _
      _ ≤ (randintT 1 4 (randintT 1 10 st).2).1.toNat := Nat.min_le_right _ _
      _ ≤ 4 := by omega
    · rw [← hevs]
    · omega
    · have := watchSum_nonneg hm
      omega
    · omega
    · omega
    · omega

theorem genSession_spec {videoIds : List String} {uid : String} {s : Nat} {time : Int}
    {fl : Bool} {st : RState} {evs : List Event} {next : Int} {st' : RState}
    (h : genSession videoIds uid s time fl st = .ok (evs, next, st')) :
    ∃ ctx : SessCtx, ctx.uid = uid ∧ ctx.sid = mkSid uid s ∧
      SessSpec videoIds ctx time fl evs next := by
  simp only [genSession] at h
  exact ⟨_, rfl, rfl, sessionBody_spec h⟩

theorem SessSpec.fields {vids : List String} {ctx : SessCtx} {time : Int} {fl : Bool}
    {evs : List Event} {next : Int} (h : SessSpec vids ctx time fl evs next) :
    ∀ e ∈ evs, e.session_id = ctx.sid ∧ e.user_id = ctx.uid := by
  obtain ⟨w, mid, endT, gap, slack, _, _, hevs, hm, _⟩ := h
  intro e he
  rw [hevs] at he
  rcases List.mem_append.mp he with h1 | h2
  · cases fl
    · simp at h1
      simp [h1, mkEvent]
    · simp at h1
  · rcases List.mem_cons.mp h2 with rfl | h3
    · simp [mkEvent]
    · rcases List.mem_append.mp h3 with h4 | h5
      · exact ⟨(hm e h4).1, (hm e h4).2.1⟩
      · simp at h5
        simp [h5, mkEvent]

theorem SessSpec.sidGood {vids : List String} {ctx : SessCtx} {time : Int} {fl : Bool}
    {evs : List Event} {next : Int} (h : SessSpec vids ctx time fl evs next) :
    SidGood vids evs := by
  obtain ⟨w, mid, endT, gap, slack, hsub, hwlen, hevs, hm, hch, heng, hhd,
    hsl0, hsl60, hend, hte, hc1, hc10, hgap1, hgap2, hnext⟩ := h
  refine ⟨(if fl then ([] : List Event)
      else [mkEvent ctx (time - 300) none .first_login none]),
    mkEvent ctx time none .session_start none,
    mkEvent ctx endT none .session_end none, mid, hevs, ?_, by simp [mkEvent],
    by simp [mkEvent], ?_, hch, ?_, ?_, hc1, hc10, ⟨w, hsub, hwlen, ?_⟩⟩
  · cases fl
    · exact Or.inr ⟨_, rfl, by simp [mkEvent], by simp [mkEvent]⟩
    · exact Or.inl (by simp)
  · intro e he
    obtain ⟨_, _, hn, _, _, _, ht⟩ := hm e he
    exact ⟨hn, by simpa [mkEvent] using ht⟩
  · exact ⟨slack, hsl0, hsl60, by simp [mkEvent]; omega⟩
  · simp [mkEvent]; omega
  · intro e he
    exact (hm e he).2.2.2.1

theorem SessSpec.eng {vids : List String} {ctx : SessCtx} {time : Int} {fl : Bool}
    {evs : List Event} {next : Int} (h : SessSpec vids ctx time fl evs next) :
    List.Chain' engStep evs ∧
      ∀ e ∈ evs.head?, ¬(e.event_name = .like ∨ e.event_name = .heart) := by
  obtain ⟨w, mid, endT, gap, slack, _, _, hevs, hm, hch, heng, hhd, _⟩ := h
  have hmidend : List.Chain' engStep (mid ++ [mkEvent ctx endT none .session_end none]) := by
    rw [List.chain'_append]
    refine ⟨heng, List.chain'_singleton _, ?_⟩
    intro x _ y hy
    simp at hy
    intro hcon
    subst hy
    rcases hcon with h' | h' <;> simp [mkEvent] at h'
  have hstart : List.Chain' engStep (mkEvent ctx time none .session_start none ::
      (mid ++ [mkEvent ctx endT none .session_end none])) := by
    rw [List.chain'_cons']
    refine ⟨?_, hmidend⟩
    intro y hy
    intro hcon
    exfalso
    cases mid with
    | nil =>
      simp at hy
      subst hy
      rcases hcon with h' | h' <;> simp [mkEvent] at h'
    | cons m0 mrest =>
      simp at hy
      have := hhd m0 (by simp)
      subst hy
      rcases hcon with h' | h' <;> rw [this] at h' <;> exact EventName.noConfusion h'
  cases fl
  · simp only [Bool.false_eq_true, if_false, List.singleton_append] at hevs
    subst hevs
    constructor
    · rw [List.chain'_cons']
      refine ⟨?_, hstart⟩
      intro y hy
      simp at hy
      intro hcon
      subst hy
      rcases hcon with h' | h' <;> simp [mkEvent] at h'
    · intro e he
      simp at he
      subst he
      simp [mkEvent]
  · simp only [if_true] at hevs
    subst hevs
    refine ⟨by simpa using hstart, ?_⟩
    intro e he
    simp at he
    subst he
    simp [mkEvent]

theorem SessSpec.evGood {vids : List String} {ctx : SessCtx} {time : Int} {fl : Bool}
    {evs : List Event} {next : Int} (h : SessSpec vids ctx time fl evs next) :
    ∀ e ∈ evs,
      ((e.video_id = none) ↔ (e.event_name = .first_login ∨
        e.event_name = .session_start ∨ e.event_name = .session_end)) ∧
      ((e.value ≠ none) ↔ e.event_name = .watch_time) ∧
      (e.event_name = .watch_time → ∃ v, e.value = some v ∧ 1 ≤ v) := by
  obtain ⟨w, mid, endT, gap, slack, _, _, hevs, hm, _⟩ := h
  intro e he
  rw [hevs] at he
  rcases List.mem_append.mp he with h1 | h2
  · cases fl
    · simp at h1
      simp [h1, mkEvent]
    · simp at h1
  · rcases List.mem_cons.mp h2 with rfl | h3
    · simp [mkEvent]
    · rcases List.mem_append.mp h3 with h4 | h5
      · obtain ⟨_, _, hn, ⟨v, _, hv⟩, hval, hnone, _⟩ := hm e h4
        refine ⟨?_, ?_, hval⟩
        · rw [hv]
          simp only [reduceCtorEq, false_iff]
          rcases hn with h' | h' | h' <;> simp [h']
        · constructor
          · intro hne
            by_contra hnw
            exact hne (hnone hnw)
          · intro hw
            obtain ⟨v', hv', _⟩ := hval hw
            simp [hv']
      · simp at h5
        simp [h5, mkEvent]

theorem SessSpec.no_fl {vids : List String} {ctx : SessCtx} {time : Int}
    {evs : List Event} {next : Int} (h : SessSpec vids ctx time true evs next) :
    ∀ e ∈ evs, e.event_name ≠ .first_login := by
  obtain ⟨w, mid, endT, gap, slack, _, _, hevs, hm, _⟩ := h
  intro e he
  rw [hevs] at he
  simp only [if_true, List.nil_append] at he
  rcases List.mem_cons.mp he with rfl | h3
  · simp [mkEvent]
  · rcases List.mem_append.mp h3 with h4 | h5
    · rcases (hm e h4).2.2.1 with h' | h' | h' <;> simp [h']
    · simp at h5
      simp [h5, mkEvent]

theorem SessSpec.fl_shape {vids : List String} {ctx : SessCtx} {time : Int}
    {evs : List Event} {next : Int} (h : SessSpec vids ctx time false evs next) :
    ∃ flEv stEv rest, evs = flEv :: stEv :: rest ∧ flEv.event_name = .first_login ∧
      stEv.event_name = .session_start ∧ stEv.timestamp = flEv.timestamp + 300 ∧
      stEv.timestamp = time ∧ ∀ e ∈ rest, e.event_name ≠ .first_login := by
  obtain ⟨w, mid, endT, gap, slack, _, _, hevs, hm, _⟩ := h
  simp only [Bool.false_eq_true, if_false] at hevs
  refine ⟨_, _, _, by simpa using hevs, by simp [mkEvent], by simp [mkEvent],
    by simp [mkEvent], by simp [mkEvent], ?_⟩
  intro e he
  rcases List.mem_append.mp he with h4 | h5
  · rcases (hm e h4).2.2.1 with h' | h' | h' <;> simp [h']
  · simp at h5
    simp [h5, mkEvent]

theorem SidGood.parts {vids : List String} {l : List Event} (h : SidGood vids l) :
    ∃ (stEv endEv : Event) (mid : List Event),
      l.filter (fun e => e.event_name == EventName.session_start) = [stEv] ∧
      l.filter (fun e => e.event_name == EventName.session_end) = [endEv] ∧
      l.filter (fun e => e.event_name == EventName.watch_time ||
        e.event_name == EventName.like || e.event_name == EventName.heart) = mid ∧
      l.filter (fun e => e.event_name == EventName.watch_time) =
        mid.filter (fun e => e.event_name == EventName.watch_time) ∧
      stEv.event_name = .session_start ∧ endEv.event_name = .session_end ∧
      stEv ∈ l ∧ endEv ∈ l ∧
      (∀ e ∈ mid,
        (e.event_name = .watch_time ∨ e.event_name = .like ∨ e.event_name = .heart) ∧
        stEv.timestamp + 1 ≤ e.timestamp) ∧
      List.Chain' (fun a b => a.timestamp ≤ b.timestamp) mid ∧
      (∃ slack, 0 ≤ slack ∧ slack ≤ 60 ∧
        endEv.timestamp = stEv.timestamp + watchSum l + slack) ∧
      stEv.timestamp ≤ endEv.timestamp ∧
      1 ≤ (mid.filter (fun e => e.event_name == EventName.watch_time)).length ∧
      (mid.filter (fun e => e.event_name == EventName.watch_time)).length ≤ 10 ∧
      (∃ ws, ws ⊆ vids ∧ ws.length ≤ 4 ∧ ∀ e ∈ mid, ∃ v ∈ ws, e.video_id = some v) := by
  obtain ⟨flpart, stEv, endEv, mid, hl, hflp, hst, hend, hmid, hch, hslack, hse, h1,
    h10, hws⟩ := h
  have hflN : ∀ e ∈ flpart, e.event_name = EventName.first_login := by
    rcases hflp with rfl | ⟨flEv, rfl, hfn, _⟩
    · intro e he; simp at he
    · intro e he; simp at he; rw [he]; exact hfn
  have hflS : flpart.filter (fun e => e.event_name == EventName.session_start) = [] := by
    rw [List.filter_eq_nil_iff]
    intro e he; rw [hflN e he]; simp
  have hflE : flpart.filter (fun e => e.event_name == EventName.session_end) = [] := by
    rw [List.filter_eq_nil_iff]
    intro e he; rw [hflN e he]; simp
  have hflW : flpart.filter (fun e => e.event_name == EventName.watch_time ||
      e.event_name == EventName.like || e.event_name == EventName.heart) = [] := by
    rw [List.filter_eq_nil_iff]
    intro e he; rw [hflN e he]; simp
  have hflWT : flpart.filter (fun e => e.event_name == EventName.watch_time) = [] := by
    rw [List.filter_eq_nil_iff]
    intro e he; rw [hflN e he]; simp
  have hmidS : mid.filter (fun e => e.event_name == EventName.session_start) = [] := by
    rw [List.filter_eq_nil_iff]
    intro e he
    rcases (hmid e he).1 with h' | h' | h' <;> simp [h']
  have hmidE : mid.filter (fun e => e.event_name == EventName.session_end) = [] := by
    rw [List.filter_eq_nil_iff]
    intro e he
    rcases (hmid e he).1 with h' | h' | h' <;> simp [h']
  have hmidW : mid.filter (fun e => e.event_name == EventName.watch_time ||
      e.event_name == EventName.like || e.event_name == EventName.heart) = mid := by
    rw [List.filter_eq_self]
    intro e he
    rcases (hmid e he).1 with h' | h' | h' <;> simp [h']
  have e4 : l.filter (fun e => e.event_name == EventName.watch_time) =
      mid.filter (fun e => e.event_name == EventName.watch_time) := by
    rw [hl, List.filter_append, hflWT, List.filter_cons, List.filter_append]
    simp [hst, hend]
  refine ⟨stEv, endEv, mid, ?_, ?_, ?_, e4, hst, hend, ?_, ?_, hmid, hch, ?_, hse,
    h1, h10, hws⟩
  · rw [hl, List.filter_append, hflS, List.filter_cons, List.filter_append, hmidS]
    simp [hst, hend]
  · rw [hl, List.filter_append, hflE, List.filter_cons, List.filter_append, hmidE]
    simp [hst, hend]
  · rw [hl, List.filter_append, hflW, List.filter_cons, List.filter_append, hmidW]
    simp [hst, hend]
  · rw [hl]; simp
  · rw [hl]; simp
  · obtain ⟨slack, hs0, hs60, hseq⟩ := hslack
    refine ⟨slack, hs0, hs60, ?_⟩
    have : watchSum l = watchSum mid := by
      unfold watchSum
      rw [e4]
    rw [this]
    exact hseq

theorem SessSpec.block {vids : List String} {ctx : SessCtx} {time : Int} {fl : Bool}
    {evs : List Event} {next : Int} (h : SessSpec vids ctx time fl evs next) :
    ∃ endT gap, startsTs evs = [time] ∧ endsTs evs = [endT] ∧ time ≤ endT ∧
      10 ≤ gap ∧ gap ≤ 600 ∧ next = endT + gap * 60 := by
  obtain ⟨w, mid, endT, gap, slack, hsub, hwlen, hevs, hm, hch, heng, hhd, hs0, hs60,
    hendT, hte, hc1, hc10, hg1, hg2, hnext⟩ := h
  have hmidS : mid.filter (fun e => e.event_name == EventName.session_start) = [] := by
    rw [List.filter_eq_nil_iff]
    intro e he
    rcases (hm e he).2.2.1 with h' | h' | h' <;> simp [h']
  have hmidE : mid.filter (fun e => e.event_name == EventName.session_end) = [] := by
    rw [List.filter_eq_nil_iff]
    intro e he
    rcases (hm e he).2.2.1 with h' | h' | h' <;> simp [h']
  refine ⟨endT, gap, ?_, ?_, hte, hg1, hg2, hnext⟩
  · unfold startsTs
    rw [hevs]
    cases fl <;>
      simp [List.filter_append, List.filter_cons, hmidS, mkEvent]
  · unfold endsTs
    rw [hevs]
    cases fl <;>
      simp [List.filter_append, List.filter_cons, hmidE, mkEvent]

theorem SessSpec.ne_nil {vids : List String} {ctx : SessCtx} {time : Int} {fl : Bool}
    {evs : List Event} {next : Int} (h : SessSpec vids ctx time fl evs next) :
    evs ≠ [] := by
  obtain ⟨w, mid, endT, gap, slack, _, _, hevs, _⟩ := h
  rw [hevs]
  cases fl <;> simp

theorem SessSpec.fl_ts {vids : List String} {ctx : SessCtx} {time : Int} {fl : Bool}
    {evs : List Event} {next : Int} (h : SessSpec vids ctx time fl evs next) :
    ∀ e ∈ evs, e.event_name = .first_login → e.timestamp = time - 300 := by
  obtain ⟨w, mid, endT, gap, slack, _, _, hevs, hm, _⟩ := h
  intro e he hefl
  rw [hevs] at he
  rcases List.mem_append.mp he with h1 | h2
  · cases fl
    · simp at h1
      simp [h1, mkEvent]
    · simp at h1
  · exfalso
    rcases List.mem_cons.mp h2 with rfl | h3
    · simp [mkEvent] at hefl
    · rcases List.mem_append.mp h3 with h4 | h5
      · rcases (hm e h4).2.2.1 with h' | h' | h' <;> rw [h'] at hefl <;>
          exact EventName.noConfusion hefl
      · simp at h5
        rw [h5] at hefl
        simp [mkEvent] at hefl

theorem chrono_chain : ∀ (t : Int) (ps : List (Int × Int)), chrono t ps →
    List.Chain' (· < ·) (ps.map Prod.fst) := by
  intro t ps
  induction ps generalizing t with
  | nil => intro _; simp
  | cons p rest ih =>
    intro h
    obtain ⟨hp1, hp12, g, hg1, hg2, hrest⟩ := h
    rw [List.map_cons, List.chain'_cons']
    refine ⟨?_, ih _ hrest⟩
    intro y hy
    cases rest with
    | nil => simp at hy
    | cons q qrest =>
      simp at hy
      obtain ⟨hq1, _⟩ := hrest
      omega

theorem chrono_se : ∀ (t : Int) (ps : List (Int × Int)), chrono t ps →
    ∀ j, j < ps.length →
      (ps.map Prod.fst).getD j 0 ≤ (ps.map Prod.snd).getD j 0 := by
  intro t ps
  induction ps generalizing t with
  | nil => intro _ j hj; simp at hj
  | cons p rest ih =>
    intro h j hj
    obtain ⟨hp1, hp12, g, hg1, hg2, hrest⟩ := h
    cases j with
    | zero => simpa using hp12
    | succ j =>
      simp only [List.map_cons, List.getD_cons_succ]
      exact ih _ hrest j (by simpa using hj)

theorem chrono_gapD : ∀ (t : Int) (ps : List (Int × Int)), chrono t ps →
    ∀ j, j + 1 < ps.length →
      ∃ g, 10 ≤ g ∧ g ≤ 600 ∧
        (ps.map Prod.fst).getD (j + 1) 0 = (ps.map Prod.snd).getD j 0 + g * 60 := by
  intro t ps
  induction ps generalizing t with
  | nil => intro _ j hj; simp at hj
  | cons p rest ih =>
    intro h j hj
    obtain ⟨hp1, hp12, g, hg1, hg2, hrest⟩ := h
    cases j with
    | zero =>
      cases rest with
      | nil => simp at hj
      | cons q qrest =>
        obtain ⟨hq1, _⟩ := hrest
        exact ⟨g, hg1, hg2, by simpa using hq1⟩
    | succ j =>
      simp only [List.map_cons, List.getD_cons_succ]
      exact ih _ hrest j (by simpa using hj)

theorem startsTs_append (a b : List Event) :
    startsTs (a ++ b) = startsTs a ++ startsTs b := by
  unfold startsTs
  rw [List.filter_append, List.map_append]

theorem endsTs_append (a b : List Event) :
    endsTs (a ++ b) = endsTs a ++ endsTs b := by
  unfold endsTs
  rw [List.filter_append, List.map_append]

/-! ### The per-user session loop -/
theorem sessionLoop_zero {vids : List String} {uid : String} {s : Nat} {time : Int}
    {fl : Bool} {st : RState} {evs : List Event} {timeF : Int} {stF : RState}
    (h : sessionLoop vids uid 0 s time fl st = .ok (evs, timeF, stF)) :
    evs = [] ∧ timeF = time ∧ stF = st := by
  simp only [sessionLoop, Except.ok.injEq, Prod.mk.injEq] at h
  exact ⟨h.1.symm, h.2.1.symm, h.2.2.symm⟩

theorem sessionLoop_succ {vids : List String} {uid : String} {n s : Nat} {time : Int}
    {fl : Bool} {st : RState} {evs : List Event} {timeF : Int} {stF : RState}
    (h : sessionLoop vids uid (n + 1) s time fl st = .ok (evs, timeF, stF)) :
    ∃ evsB time1 st1 rest,
      genSession vids uid s time fl st = .ok (evsB, time1, st1) ∧
      sessionLoop vids uid n (s + 1) time1 true st1 = .ok (rest, timeF, stF) ∧
      evs = evsB ++ rest := by
  simp only [sessionLoop] at h
  cases hgs : genSession vids uid s time fl st with
  | error m => rw [hgs] at h; dsimp only at h; exact absurd h (by simp)
  | ok p =>
    obtain ⟨evsB, time1, st1⟩ := p
    rw [hgs] at h
    dsimp only at h
    cases hrec : sessionLoop vids uid n (s + 1) time1 true st1 with
    | error m => rw [hrec] at h; dsimp only at h; exact absurd h (by simp)
    | ok q =>
      obtain ⟨rest, timeF', stF'⟩ := q
      rw [hrec] at h
      dsimp only at h
      simp only [Except.ok.injEq, Prod.mk.injEq] at h
      obtain ⟨hevs, htf, hsf⟩ := h
      subst htf
      subst hsf
      exact ⟨evsB, time1, st1, rest, rfl, hrec, hevs.symm⟩

theorem sessionLoop_mem {vids : List String} {uid : String} :
    ∀ (n s : Nat) (time : Int) (fl : Bool) (st : RState) (evs : List Event)
      (timeF : Int) (stF : RState),
      sessionLoop vids uid n s time fl st = .ok (evs, timeF, stF) →
      ∀ e ∈ evs, e.user_id = uid ∧ ∃ j, s ≤ j ∧ j < s + n ∧ e.session_id = mkSid uid j := by
  intro n
  induction n with
  | zero =>
    intro s time fl st evs timeF stF h e he
    rw [(sessionLoop_zero h).1] at he
    simp at he
  | succ n ih =>
    intro s time fl st evs timeF stF h e he
    obtain ⟨evsB, time1, st1, rest, hgs, hrec, hevs⟩ := sessionLoop_succ h
    obtain ⟨ctx, hcu, hcs, hspec⟩ := genSession_spec hgs
    subst hevs
    rcases List.mem_append.mp he with h1 | h2
    · have := hspec.fields e h1
      exact ⟨this.2.trans hcu, s, le_refl s, by omega, this.1.trans hcs⟩
    · obtain ⟨hu, j, hj1, hj2, hj3⟩ := ih _ _ _ _ _ _ _ hrec e h2
      exact ⟨hu, j, by omega, by omega, hj3⟩

theorem sessionLoop_sid {vids : List String} {uid : String} :
    ∀ (n s : Nat) (time : Int) (fl : Bool) (st : RState) (evs : List Event)
      (timeF : Int) (stF : RState),
      sessionLoop vids uid n s time fl st = .ok (evs, timeF, stF) →
      ∀ sid, evs.filter (fun e => e.session_id == sid) = [] ∨
        SidGood vids (evs.filter (fun e => e.session_id == sid)) := by
  intro n
  induction n with
  | zero =>
    intro s time fl st evs timeF stF h sid
    rw [(sessionLoop_zero h).1]
    exact Or.inl rfl
  | succ n ih =>
    intro s time fl st evs timeF stF h sid
    obtain ⟨evsB, time1, st1, rest, hgs, hrec, hevs⟩ := sessionLoop_succ h
    obtain ⟨ctx, hcu, hcs, hspec⟩ := genSession_spec hgs
    subst hevs
    rw [List.filter_append]
    by_cases hs : sid = mkSid uid s
    · have hB : evsB.filter (fun e => e.session_id == sid) = evsB := by
        rw [List.filter_eq_self]
        intro e he
        rw [(hspec.fields e he).1, hcs, hs]
        simp
      have hR : rest.filter (fun e => e.session_id == sid) = [] := by
        rw [List.filter_eq_nil_iff]
        intro e he
        obtain ⟨_, j, hj1, _, hj3⟩ := sessionLoop_mem _ _ _ _ _ _ _ _ hrec e he
        rw [hj3, hs]
        simp only [beq_iff_eq]
        intro hcon
        have := mkSid_same_uid_inj hcon
        omega
      rw [hB, hR, List.append_nil]
      exact Or.inr hspec.sidGood
    · have hB : evsB.filter (fun e => e.session_id == sid) = [] := by
        rw [List.filter_eq_nil_iff]
        intro e he
        rw [(hspec.fields e he).1, hcs]
        simp only [beq_iff_eq]
        intro hcon
        exact hs hcon.symm
      rw [hB, List.nil_append]
      exact ih _ _ _ _ _ _ _ hrec sid

theorem sessionLoop_eng {vids : List String} {uid : String} :
    ∀ (n s : Nat) (time : Int) (fl : Bool) (st : RState) (evs : List Event)
      (timeF : Int) (stF : RState),
      sessionLoop vids uid n s time fl st = .ok (evs, timeF, stF) →
      List.Chain' engStep evs ∧
        ∀ e ∈ evs.head?, ¬(e.event_name = .like ∨ e.event_name = .heart) := by
  intro n
  induction n with
  | zero =>
    intro s time fl st evs timeF stF h
    rw [(sessionLoop_zero h).1]
    simp
  | succ n ih =>
    intro s time fl st evs timeF stF h
    obtain ⟨evsB, time1, st1, rest, hgs, hrec, hevs⟩ := sessionLoop_succ h
    obtain ⟨ctx, hcu, hcs, hspec⟩ := genSession_spec hgs
    obtain ⟨hBc, hBh⟩ := hspec.eng
    obtain ⟨hRc, hRh⟩ := ih _ _ _ _ _ _ _ hrec
    subst hevs
    constructor
    · rw [List.chain'_append]
      refine ⟨hBc, hRc, ?_⟩
      intro x _ y hy
      intro hcon
      exact absurd hcon (hRh y hy)
    · intro e he
      cases hB : evsB with
      | nil => exact absurd hB hspec.ne_nil
      | cons b bs =>
        rw [hB] at he
        simp at he
        subst he
        exact hBh _ (by rw [hB]; rfl)

theorem sessionLoop_chrono {vids : List String} {uid : String} :
    ∀ (n s : Nat) (time : Int) (fl : Bool) (st : RState) (evs : List Event)
      (timeF : Int) (stF : RState),
      sessionLoop vids uid n s time fl st = .ok (evs, timeF, stF) →
      ∃ ps : List (Int × Int), startsTs evs = ps.map Prod.fst ∧
        endsTs evs = ps.map Prod.snd ∧ chrono time ps := by
  intro n
  induction n with
  | zero =>
    intro s time fl st evs timeF stF h
    rw [(sessionLoop_zero h).1]
    exact ⟨[], by simp [startsTs], by simp [endsTs], trivial⟩
  | succ n ih =>
    intro s time fl st evs timeF stF h
    obtain ⟨evsB, time1, st1, rest, hgs, hrec, hevs⟩ := sessionLoop_succ h
    obtain ⟨ctx, hcu, hcs, hspec⟩ := genSession_spec hgs
    obtain ⟨endT, gap, hsB, heB, hte, hg1, hg2, hnext⟩ := hspec.block
    obtain ⟨ps, hsR, heR, hcR⟩ := ih _ _ _ _ _ _ _ hrec
    subst hevs
    refine ⟨(time, endT) :: ps, ?_, ?_, rfl, hte, gap, hg1, hg2, ?_⟩
    · rw [startsTs_append, hsB, hsR]; rfl
    · rw [endsTs_append, heB, heR]; rfl
    · rw [← hnext]; exact hcR

theorem sessionLoop_no_fl {vids : List String} {uid : String} :
    ∀ (n s : Nat) (time : Int) (st : RState) (evs : List Event)
      (timeF : Int) (stF : RState),
      sessionLoop vids uid n s time true st = .ok (evs, timeF, stF) →
      ∀ e ∈ evs, e.event_name ≠ .first_login := by
  intro n
  induction n with
  | zero =>
    intro s time st evs timeF stF h e he
    rw [(sessionLoop_zero h).1] at he
    simp at he
  | succ n ih =>
    intro s time st evs timeF stF h e he
    obtain ⟨evsB, time1, st1, rest, hgs, hrec, hevs⟩ := sessionLoop_succ h
    obtain ⟨ctx, hcu, hcs, hspec⟩ := genSession_spec hgs
    subst hevs
    rcases List.mem_append.mp he with h1 | h2
    · exact hspec.no_fl e h1
    · exact ih _ _ _ _ _ _ hrec e h2

theorem sessionLoop_fl_ts {vids : List String} {uid : String} :
    ∀ (n s : Nat) (time : Int) (fl : Bool) (st : RState) (evs : List Event)
      (timeF : Int) (stF : RState),
      sessionLoop vids uid n s time fl st = .ok (evs, timeF, stF) →
      ∀ e ∈ evs, e.event_name = .first_login → e.timestamp = time - 300 := by
  intro n
  cases n with
  | zero =>
    intro s time fl st evs timeF stF h e he
    rw [(sessionLoop_zero h).1] at he
    simp at he
  | succ n =>
    intro s time fl st evs timeF stF h e he hfl
    obtain ⟨evsB, time1, st1, rest, hgs, hrec, hevs⟩ := sessionLoop_succ h
    obtain ⟨ctx, hcu, hcs, hspec⟩ := genSession_spec hgs
    subst hevs
    rcases List.mem_append.mp he with h1 | h2
    · exact hspec.fl_ts e h1 hfl
    · exact absurd hfl (sessionLoop_no_fl _ _ _ _ _ _ _ hrec e h2)

theorem sessionLoop_evGood {vids : List String} {uid : String} :
    ∀ (n s : Nat) (time : Int) (fl : Bool) (st : RState) (evs : List Event)
      (timeF : Int) (stF : RState),
      sessionLoop vids uid n s time fl st = .ok (evs, timeF, stF) →
      ∀ e ∈ evs,
        ((e.video_id = none) ↔ (e.event_name = .first_login ∨
          e.event_name = .session_start ∨ e.event_name = .session_end)) ∧
        ((e.value ≠ none) ↔ e.event_name = .watch_time) ∧
        (e.event_name = .watch_time → ∃ v, e.value = some v ∧ 1 ≤ v) := by
  intro n
  induction n with
  | zero =>
    intro s time fl st evs timeF stF h e he
    rw [(sessionLoop_zero h).1] at he
    simp at he
  | succ n ih =>
    intro s time fl st evs timeF stF h e he
    obtain ⟨evsB, time1, st1, rest, hgs, hrec, hevs⟩ := sessionLoop_succ h
    obtain ⟨ctx, hcu, hcs, hspec⟩ := genSession_spec hgs
    subst hevs
    rcases List.mem_append.mp he with h1 | h2
    · exact hspec.evGood e h1
    · exact ih _ _ _ _ _ _ _ hrec e h2

theorem sessionLoop_user_shape {vids : List String} {uid : String} {n s : Nat}
    {time : Int} {st : RState} {evs : List Event} {timeF : Int} {stF : RState}
    (h : sessionLoop vids uid (n + 1) s time false st = .ok (evs, timeF, stF)) :
    ∃ flEv stEv rest, evs = flEv :: stEv :: rest ∧ flEv.event_name = .first_login ∧
      stEv.event_name = .session_start ∧ stEv.timestamp = flEv.timestamp + 300 ∧
      stEv.timestamp = time ∧ ∀ e ∈ rest, e.event_name ≠ .first_login := by
  obtain ⟨evsB, time1, st1, rest, hgs, hrec, hevs⟩ := sessionLoop_succ h
  obtain ⟨ctx, hcu, hcs, hspec⟩ := genSession_spec hgs
  obtain ⟨flEv, stEv, restB, hB, hfn, hsn, hsts, hstt, hnofl⟩ := hspec.fl_shape
  subst hevs
  rw [hB]
  refine ⟨flEv, stEv, restB ++ rest, by simp, hfn, hsn, hsts, hstt, ?_⟩
  intro e he
  rcases List.mem_append.mp he with h1 | h2
  · exact hnofl e h1
  · exact sessionLoop_no_fl _ _ _ _ _ _ _ hrec e h2

/-! ### The per-user generator -/
theorem randint_ok {a b : Int} {st : RState} {x : Int} {st' : RState}
    (h : randint a b st = .ok (x, st')) : a ≤ x ∧ x ≤ b := by
  unfold randint at h
  split at h
  · rename_i hab
    simp only [Except.ok.injEq] at h
    have hb := randintT_bounds st hab
    rw [h] at hb
    exact hb
  · exact absurd h (by simp)

theorem genUser_ok {days base : Int} {vids : List String} {uid : String} {st : RState}
    {evs : List Event} {stF : RState}
    (h : genUser days base vids uid st = .ok (evs, stF)) :
    ∃ (off : Int) (N : Nat) (st1 : RState) (timeF : Int) (stF' : RState),
      0 ≤ off ∧ off ≤ days * 24 ∧ 1 ≤ N ∧
      sessionLoop vids uid N 0 (base + off * 3600) false st1 = .ok (evs, timeF, stF') := by
  simp only [genUser] at h
  cases hr : randint 0 (days * 24) (drawG st).2 with
  | error m => rw [hr] at h; dsimp only at h; exact absurd h (by simp)
  | ok p =>
    obtain ⟨off, st1⟩ := p
    rw [hr] at h
    dsimp only at h
    cases hsl : sessionLoop vids uid ((drawG st).1 + 1) 0 (base + off * 3600) false st1 with
    | error m => rw [hsl] at h; dsimp only at h; exact absurd h (by simp)
    | ok q =>
      obtain ⟨evs', timeF, stF'⟩ := q
      rw [hsl] at h
      dsimp only at h
      simp only [Except.ok.injEq, Prod.mk.injEq] at h
      obtain ⟨hevs, _⟩ := h
      obtain ⟨h0, h24⟩ := randint_ok hr
      subst hevs
      exact ⟨off, (drawG st).1 + 1, st1, timeF, stF', h0, h24, by omega, hsl⟩

theorem genUser_mem {days base : Int} {vids : List String} {uid : String} {st : RState}
    {evs : List Event} {stF : RState}
    (h : genUser days base vids uid st = .ok (evs, stF)) :
    ∀ e ∈ evs, e.user_id = uid ∧ ∃ j, e.session_id = mkSid uid j := by
  obtain ⟨off, N, st1, timeF, stF', _, _, _, hsl⟩ := genUser_ok h
  intro e he
  obtain ⟨hu, j, _, _, hj⟩ := sessionLoop_mem _ _ _ _ _ _ _ _ hsl e he
  exact ⟨hu, j, hj⟩

theorem genUser_sid {days base : Int} {vids : List String} {uid : String} {st : RState}
    {evs : List Event} {stF : RState}
    (h : genUser days base vids uid st = .ok (evs, stF)) :
    ∀ sid, evs.filter (fun e => e.session_id == sid) = [] ∨
      SidGood vids (evs.filter (fun e => e.session_id == sid)) := by
  obtain ⟨off, N, st1, timeF, stF', _, _, _, hsl⟩ := genUser_ok h
  exact sessionLoop_sid _ _ _ _ _ _ _ _ hsl

theorem genUser_eng {days base : Int} {vids : List String} {uid : String} {st : RState}
    {evs : List Event} {stF : RState}
    (h : genUser days base vids uid st = .ok (evs, stF)) :
    List.Chain' engStep evs ∧
      ∀ e ∈ evs.head?, ¬(e.event_name = .like ∨ e.event_name = .heart) := by
  obtain ⟨off, N, st1, timeF, stF', _, _, _, hsl⟩ := genUser_ok h
  exact sessionLoop_eng _ _ _ _ _ _ _ _ hsl

theorem genUser_evGood {days base : Int} {vids : List String} {uid : String} {st : RState}
    {evs : List Event} {stF : RState}
    (h : genUser days base vids uid st = .ok (evs, stF)) :
    ∀ e ∈ evs,
      ((e.video_id = none) ↔ (e.event_name = .first_login ∨
        e.event_name = .session_start ∨ e.event_name = .session_end)) ∧
      ((e.value ≠ none) ↔ e.event_name = .watch_time) ∧
      (e.event_name = .watch_time → ∃ v, e.value = some v ∧ 1 ≤ v) := by
  obtain ⟨off, N, st1, timeF, stF', _, _, _, hsl⟩ := genUser_ok h
  exact sessionLoop_evGood _ _ _ _ _ _ _ _ hsl

theorem genUser_fl {days base : Int} {vids : List String} {uid : String} {st : RState}
    {evs : List Event} {stF : RState}
    (h : genUser days base vids uid st = .ok (evs, stF)) :
    ∀ e ∈ evs, e.event_name = .first_login →
      ∃ off, 0 ≤ off ∧ off ≤ days * 24 ∧ e.timestamp = base + off * 3600 - 300 := by
  obtain ⟨off, N, st1, timeF, stF', h0, h24, _, hsl⟩ := genUser_ok h
  intro e he hfl
  have := sessionLoop_fl_ts _ _ _ _ _ _ _ _ hsl e he hfl
  exact ⟨off, h0, h24, by omega⟩

theorem genUser_shape {days base : Int} {vids : List String} {uid : String} {st : RState}
    {evs : List Event} {stF : RState}
    (h : genUser days base vids uid st = .ok (evs, stF)) :
    (∃ flEv stEv rest, evs = flEv :: stEv :: rest ∧ flEv.event_name = .first_login ∧
      stEv.event_name = .session_start ∧ stEv.timestamp = flEv.timestamp + 300 ∧
      ∀ e ∈ rest, e.event_name ≠ .first_login) ∧
    ∃ (t0 : Int) (ps : List (Int × Int)), startsTs evs = ps.map Prod.fst ∧
      endsTs evs = ps.map Prod.snd ∧ chrono t0 ps := by
  obtain ⟨off, N, st1, timeF, stF', h0, h24, hN, hsl⟩ := genUser_ok h
  constructor
  · cases N with
    | zero => omega
    | succ n =>
      obtain ⟨flEv, stEv, rest, he, h1, h2, h3, _, h5⟩ := sessionLoop_user_shape hsl
      exact ⟨flEv, stEv, rest, he, h1, h2, h3, h5⟩
  · obtain ⟨ps, hs, hen, hc⟩ := sessionLoop_chrono _ _ _ _ _ _ _ _ hsl
    exact ⟨_, ps, hs, hen, hc⟩

/-! ### The user loop -/
theorem eventsLoop_nil {days base : Int} {vids : List String} {st : RState}
    {evs : List Event} {stF : RState}
    (h : eventsLoop days base vids [] st = .ok (evs, stF)) : evs = [] := by
  simp only [eventsLoop, Except.ok.injEq, Prod.mk.injEq] at h
  exact h.1.symm

theorem eventsLoop_cons {days base : Int} {vids : List String} {uid : String}
    {uids : List String} {st : RState} {evs : List Event} {stF : RState}
    (h : eventsLoop days base vids (uid :: uids) st = .ok (evs, stF)) :
    ∃ evsU st1 rest stF',
      genUser days base vids uid st = .ok (evsU, st1) ∧
      eventsLoop days base vids uids st1 = .ok (rest, stF') ∧ evs = evsU ++ rest := by
  simp only [eventsLoop] at h
  cases hg : genUser days base vids uid st with
  | error m => rw [hg] at h; dsimp only at h; exact absurd h (by simp)
  | ok p =>
    obtain ⟨evsU, st1⟩ := p
    rw [hg] at h
    dsimp only at h
    cases hrec : eventsLoop days base vids uids st1 with
    | error m => rw [hrec] at h; dsimp only at h; exact absurd h (by simp)
    | ok q =>
      obtain ⟨rest, stF'⟩ := q
      rw [hrec] at h
      dsimp only at h
      simp only [Except.ok.injEq, Prod.mk.injEq] at h
      exact ⟨evsU, st1, rest, stF', rfl, hrec, h.1.symm⟩

theorem eventsLoop_mem {days base : Int} {vids : List String} :
    ∀ (uids : List String) (st : RState) (evs : List Event) (stF : RState),
      eventsLoop days base vids uids st = .ok (evs, stF) →
      ∀ e ∈ evs, e.user_id ∈ uids ∧ ∃ j, e.session_id = mkSid e.user_id j := by
  intro uids
  induction uids with
  | nil =>
    intro st evs stF h e he
    rw [eventsLoop_nil h] at he
    simp at he
  | cons uid uids ih =>
    intro st evs stF h e he
    obtain ⟨evsU, st1, rest, stF', hg, hrec, hevs⟩ := eventsLoop_cons h
    subst hevs
    rcases List.mem_append.mp he with h1 | h2
    · obtain ⟨hu, j, hj⟩ := genUser_mem hg e h1
      exact ⟨by simp [hu], j, by rw [hu]; exact hj⟩
    · obtain ⟨hu, hj⟩ := ih _ _ _ hrec e h2
      exact ⟨by simp [hu], hj⟩

theorem eventsLoop_sid {days base : Int} {vids : List String} :
    ∀ (uids : List String) (st : RState) (evs : List Event) (stF : RState),
      eventsLoop days base vids uids st = .ok (evs, stF) →
      uids.Nodup →
      (∀ u1 ∈ uids, ∀ u2 ∈ uids, ∀ j1 j2 : Nat, mkSid u1 j1 = mkSid u2 j2 → u1 = u2) →
      ∀ sid, evs.filter (fun e => e.session_id == sid) = [] ∨
        SidGood vids (evs.filter (fun e => e.session_id == sid)) := by
  intro uids
  induction uids with
  | nil =>
    intro st evs stF h _ _ sid
    rw [eventsLoop_nil h]
    exact Or.inl rfl
  | cons uid uids ih =>
    intro st evs stF h hnd hsafe sid
    obtain ⟨evsU, st1, rest, stF', hg, hrec, hevs⟩ := eventsLoop_cons h
    subst hevs
    rw [List.filter_append]
    rcases eq_or_ne (evsU.filter (fun e => e.session_id == sid)) [] with hU | hU
    · rw [hU, List.nil_append]
      exact ih _ _ _ hrec (List.nodup_cons.mp hnd).2
        (fun u1 hu1 u2 hu2 => hsafe u1 (by simp [hu1]) u2 (by simp [hu2])) sid
    · obtain ⟨e0, he0⟩ := List.exists_mem_of_ne_nil _ hU
      have he0m := List.mem_filter.mp he0
      have he0sid : e0.session_id = sid := by simpa using he0m.2
      obtain ⟨_, j0, hj0⟩ := genUser_mem hg e0 he0m.1
      have hR : rest.filter (fun e => e.session_id == sid) = [] := by
        rw [List.filter_eq_nil_iff]
        intro e he
        obtain ⟨hu, j, hj⟩ := eventsLoop_mem _ _ _ _ hrec e he
        simp only [beq_iff_eq]
        intro hcon
        have : mkSid e.user_id j = mkSid uid j0 := by
          rw [← hj, hcon, ← he0sid, hj0]
        have huu : e.user_id = uid :=
          hsafe e.user_id (by simp [hu]) uid (by simp) j j0 this
        have : uid ∈ uids := by rw [← huu]; exact hu
        exact (List.nodup_cons.mp hnd).1 this
      rw [hR, List.append_nil]
      rcases genUser_sid hg sid with h' | h'
      · exact absurd h' hU
      · exact Or.inr h'

theorem eventsLoop_eng {days base : Int} {vids : List String} :
    ∀ (uids : List String) (st : RState) (evs : List Event) (stF : RState),
      eventsLoop days base vids uids st = .ok (evs, stF) →
      List.Chain' engStep evs ∧
        ∀ e ∈ evs.head?, ¬(e.event_name = .like ∨ e.event_name = .heart) := by
  intro uids
  induction uids with
  | nil =>
    intro st evs stF h
    rw [eventsLoop_nil h]
    simp
  | cons uid uids ih =>
    intro st evs stF h
    obtain ⟨evsU, st1, rest, stF', hg, hrec, hevs⟩ := eventsLoop_cons h
    obtain ⟨hUc, hUh⟩ := genUser_eng hg
    obtain ⟨hRc, hRh⟩ := ih _ _ _ hrec
    subst hevs
    constructor
    · rw [List.chain'_append]
      refine ⟨hUc, hRc, ?_⟩
      intro x _ y hy hcon
      exact absurd hcon (hRh y hy)
    · intro e he
      cases hU : evsU with
      | nil =>
        rw [hU, List.nil_append] at he
        exact hRh e he
      | cons b bs =>
        rw [hU] at he
        simp at he
        subst he
        exact hUh _ (by rw [hU]; rfl)

theorem eventsLoop_evGood {days base : Int} {vids : List String} :
    ∀ (uids : List String) (st : RState) (evs : List Event) (stF : RState),
      eventsLoop days base vids uids st = .ok (evs, stF) →
      ∀ e ∈ evs,
        ((e.video_id = none) ↔ (e.event_name = .first_login ∨
          e.event_name = .session_start ∨ e.event_name = .session_end)) ∧
        ((e.value ≠ none) ↔ e.event_name = .watch_time) ∧
        (e.event_name = .watch_time → ∃ v, e.value = some v ∧ 1 ≤ v) := by
  intro uids
  induction uids with
  | nil =>
    intro st evs stF h e he
    rw [eventsLoop_nil h] at he
    simp at he
  | cons uid uids ih =>
    intro st evs stF h e he
    obtain ⟨evsU, st1, rest, stF', hg, hrec, hevs⟩ := eventsLoop_cons h
    subst hevs
    rcases List.mem_append.mp he with h1 | h2
    · exact genUser_evGood hg e h1
    · exact ih _ _ _ hrec e h2

theorem eventsLoop_fl {days base : Int} {vids : List String} :
    ∀ (uids : List String) (st : RState) (evs : List Event) (stF : RState),
      eventsLoop days base vids uids st = .ok (evs, stF) →
      ∀ e ∈ evs, e.event_name = .first_login →
        ∃ off, 0 ≤ off ∧ off ≤ days * 24 ∧ e.timestamp = base + off * 3600 - 300 := by
  intro uids
  induction uids with
  | nil =>
    intro st evs stF h e he
    rw [eventsLoop_nil h] at he
    simp at he
  | cons uid uids ih =>
    intro st evs stF h e he hfl
    obtain ⟨evsU, st1, rest, stF', hg, hrec, hevs⟩ := eventsLoop_cons h
    subst hevs
    rcases List.mem_append.mp he with h1 | h2
    · exact genUser_fl hg e h1 hfl
    · exact ih _ _ _ hrec e h2 hfl

theorem eventsLoop_user {days base : Int} {vids : List String} :
    ∀ (uids : List String) (st : RState) (evs : List Event) (stF : RState),
      eventsLoop days base vids uids st = .ok (evs, stF) →
      uids.Nodup →
      ∀ uid, evs.filter (fun e => e.user_id == uid) = [] ∨
        UserShape (evs.filter (fun e => e.user_id == uid)) := by
  intro uids
  induction uids with
  | nil =>
    intro st evs stF h _ uid
    rw [eventsLoop_nil h]
    exact Or.inl rfl
  | cons uid0 uids ih =>
    intro st evs stF h hnd uid
    obtain ⟨evsU, st1, rest, stF', hg, hrec, hevs⟩ := eventsLoop_cons h
    subst hevs
    rw [List.filter_append]
    by_cases hu : uid = uid0
    · have hU : evsU.filter (fun e => e.user_id == uid) = evsU := by
        rw [List.filter_eq_self]
        intro e he
        rw [(genUser_mem hg e he).1, hu]
        simp
      have hR : rest.filter (fun e => e.user_id == uid) = [] := by
        rw [List.filter_eq_nil_iff]
        intro e he
        obtain ⟨hue, _⟩ := eventsLoop_mem _ _ _ _ hrec e he
        simp only [beq_iff_eq]
        intro hcon
        rw [hcon, hu] at hue
        exact (List.nodup_cons.mp hnd).1 hue
      rw [hU, hR, List.append_nil]
      exact Or.inr ⟨(genUser_shape hg).1, (genUser_shape hg).2⟩
    · have hU : evsU.filter (fun e => e.user_id == uid) = [] := by
        rw [List.filter_eq_nil_iff]
        intro e he
        rw [(genUser_mem hg e he).1]
        simp only [beq_iff_eq]
        intro hcon
        exact hu hcon.symm
      rw [hU, List.nil_append]
      exact ih _ _ _ hrec (List.nodup_cons.mp hnd).2 uid

/-! ### Top-level unpacking of `write_outputs` -/
theorem usersLoop_map {days today : Int} :
    ∀ (idxs : List Nat) (st : RState) (rows : List UserRow) (st' : RState),
      usersLoop days today idxs st = .ok (rows, st') →
      rows.map (fun u => u.user_id) = idxs.map mkUid := by
  intro idxs
  induction idxs with
  | nil =>
    intro st rows st' h
    simp only [usersLoop, Except.ok.injEq, Prod.mk.injEq] at h
    rw [← h.1]
    rfl
  | cons i is ih =>
    intro st rows st' h
    simp only [usersLoop] at h
    cases hr : randint 1 (days + 7) st with
    | error m => rw [hr] at h; dsimp only at h; exact absurd h (by simp)
    | ok p =>
      obtain ⟨k, st1⟩ := p
      rw [hr] at h
      dsimp only at h
      cases hrec : usersLoop days today is (choiceNE "female"
          ["male", "other", "prefer_not_to_say"] (choiceNE "18-24"
          ["25-34", "35-44", "45-54", "55+"] (choiceNE "free"
          ["basic", "premium"] st1).2).2).2 with
      | error m => rw [hrec] at h; dsimp only at h; exact absurd h (by simp)
      | ok q =>
        obtain ⟨rows', st2⟩ := q
        rw [hrec] at h
        dsimp only at h
        simp only [Except.ok.injEq, Prod.mk.injEq] at h
        rw [← h.1]
        simp only [List.map_cons]
        rw [ih _ _ _ hrec]

theorem mkUid_injective : Function.Injective mkUid := fun _ _ h => mkUid_inj h

theorem write_outputs_ok {cfg : GeneratorConfig} {now : Int} {st : RState} {out : Outputs}
    (h : write_outputs cfg now st = .ok out) :
    ∃ (st1 stF : RState),
      generate_users cfg now st = .ok (out.users, st1) ∧
      out.videos = (generate_videos cfg st1).1 ∧
      out.devices = generate_devices ∧
      out.users.map (fun u => u.user_id) = (List.range cfg.users.toNat).map mkUid ∧
      eventsLoop cfg.days (now - cfg.days * 86400)
        (out.videos.map (fun v => v.video_id))
        ((List.range cfg.users.toNat).map mkUid) (generate_videos cfg st1).2 =
        .ok (out.events, stF) := by
  unfold write_outputs at h
  cases hu : generate_users cfg now st with
  | error m => rw [hu] at h; dsimp only at h; exact absurd h (by simp)
  | ok p =>
    obtain ⟨users, st1⟩ := p
    rw [hu] at h
    dsimp only at h
    have hmap : users.map (fun u => u.user_id) = (List.range cfg.users.toNat).map mkUid :=
      usersLoop_map _ _ _ _ hu
    cases he : generate_events cfg now (users.map (fun u => u.user_id))
        (((generate_videos cfg st1).1).map (fun v => v.video_id))
        (generate_videos cfg st1).2 with
    | error m => rw [he] at h; dsimp only at h; exact absurd h (by simp)
    | ok q =>
      obtain ⟨events, stF⟩ := q
      rw [he] at h
      dsimp only at h
      simp only [Except.ok.injEq] at h
      subst h
      refine ⟨st1, stF, rfl, rfl, rfl, hmap, ?_⟩
      unfold generate_events at he
      rw [hmap] at he
      exact he

theorem uids_nodup (n : Nat) : ((List.range n).map mkUid).Nodup :=
  (List.nodup_range n).map mkUid_injective

theorem uids_safe (n : Nat) :
    ∀ u1 ∈ (List.range n).map mkUid, ∀ u2 ∈ (List.range n).map mkUid,
      ∀ j1 j2 : Nat, mkSid u1 j1 = mkSid u2 j2 → u1 = u2 := by
  intro u1 hu1 u2 hu2 j1 j2 hcon
  simp only [List.mem_map] at hu1 hu2
  obtain ⟨i1, _, hi1⟩ := hu1
  obtain ⟨i2, _, hi2⟩ := hu2
  rw [← hi1, ← hi2] at hcon ⊢
  rw [(mkSid_inj hcon).1]

/-! ### Global consequences for a successful run -/
theorem global_sid {cfg : GeneratorConfig} {now : Int} {st : RState} {out : Outputs}
    (h : write_outputs cfg now st = .ok out) {e : Event} (he : e ∈ out.events) :
    SidGood (out.videos.map (fun v => v.video_id))
      (out.events.filter (fun x => x.session_id == e.session_id)) := by
  obtain ⟨st1, stF, _, _, _, _, hev⟩ := write_outputs_ok h
  rcases eventsLoop_sid _ _ _ _ hev (uids_nodup _) (uids_safe _) e.session_id with h' | h'
  · exfalso
    have : e ∈ out.events.filter (fun x => x.session_id == e.session_id) :=
      List.mem_filter.mpr ⟨he, by simp⟩
    rw [h'] at this
    simp at this
  · exact h'

theorem global_eng {cfg : GeneratorConfig} {now : Int} {st : RState} {out : Outputs}
    (h : write_outputs cfg now st = .ok out) :
    List.Chain' engStep out.events ∧
      ∀ e ∈ out.events.head?, ¬(e.event_name = .like ∨ e.event_name = .heart) := by
  obtain ⟨st1, stF, _, _, _, _, hev⟩ := write_outputs_ok h
  exact eventsLoop_eng _ _ _ _ hev

theorem global_evGood {cfg : GeneratorConfig} {now : Int} {st : RState} {out : Outputs}
    (h : write_outputs cfg now st = .ok out) :
    ∀ e ∈ out.events,
      ((e.video_id = none) ↔ (e.event_name = .first_login ∨
        e.event_name = .session_start ∨ e.event_name = .session_end)) ∧
      ((e.value ≠ none) ↔ e.event_name = .watch_time) ∧
      (e.event_name = .watch_time → ∃ v, e.value = some v ∧ 1 ≤ v) := by
  obtain ⟨st1, stF, _, _, _, _, hev⟩ := write_outputs_ok h
  exact eventsLoop_evGood _ _ _ _ hev

theorem global_fl {cfg : GeneratorConfig} {now : Int} {st : RState} {out : Outputs}
    (h : write_outputs cfg now st = .ok out) :
    ∀ e ∈ out.events, e.event_name = .first_login →
      ∃ off, 0 ≤ off ∧ off ≤ cfg.days * 24 ∧
        e.timestamp = (now - cfg.days * 86400) + off * 3600 - 300 := by
  obtain ⟨st1, stF, _, _, _, _, hev⟩ := write_outputs_ok h
  exact eventsLoop_fl _ _ _ _ hev

theorem global_user {cfg : GeneratorConfig} {now : Int} {st : RState} {out : Outputs}
    (h : write_outputs cfg now st = .ok out) {uid : String}
    (hu : ∃ e ∈ out.events, e.user_id = uid) :
    UserShape (out.events.filter (fun x => x.user_id == uid)) := by
  obtain ⟨st1, stF, _, _, _, _, hev⟩ := write_outputs_ok h
  rcases eventsLoop_user _ _ _ _ hev (uids_nodup _) uid with h' | h'
  · exfalso
    obtain ⟨e, he, heu⟩ := hu
    have : e ∈ out.events.filter (fun x => x.user_id == uid) :=
      List.mem_filter.mpr ⟨he, by simp [heu]⟩
    rw [h'] at this
    simp at this
  · exact h'

theorem chain'_get? {α : Type} {R : α → α → Prop} :
    ∀ {l : List α}, List.Chain' R l → ∀ (j : Nat) (x y : α),
      l.get? j = some x → l.get? (j + 1) = some y → R x y := by
  intro l
  induction l with
  | nil => intro _ j x y hx; simp at hx
  | cons a as ih =>
    intro h j x y hx hy
    rw [List.chain'_cons'] at h
    cases j with
    | zero =>
      simp only [List.get?_cons_zero, Option.some.injEq] at hx
      subst hx
      simp only [List.get?_cons_succ] at hy
      cases as with
      | nil => simp at hy
      | cons b bs =>
        simp only [List.get?_cons_zero, Option.some.injEq] at hy
        subst hy
        exact h.1 _ rfl
    | succ j =>
      exact ih h.2 j x y (by simpa using hx) (by simpa using hy)

/-! ### The claims -/
/-- Claim C8: for every emitted event, `video_id` is null exactly for
`first_login`/`session_start`/`session_end` and non-null exactly for
`watch_time`/`like`/`heart`, and `value` is non-null exactly for
`watch_time`. -/
theorem c8_null_discipline (cfg : GeneratorConfig) (now : Int) (st : RState)
    (out : Outputs) (h : write_outputs cfg now st = .ok out) :
    ∀ e ∈ out.events,
      ((e.video_id = none) ↔ (e.event_name = .first_login ∨
        e.event_name = .session_start ∨ e.event_name = .session_end)) ∧
      ((e.video_id ≠ none) ↔ (e.event_name = .watch_time ∨
        e.event_name = .like ∨ e.event_name = .heart)) ∧
      ((e.value ≠ none) ↔ e.event_name = .watch_time) := by
  intro e he
  obtain ⟨h1, h2, _⟩ := global_evGood h e he
  refine ⟨h1, ?_, h2⟩
  have hcases : e.event_name = .first_login ∨ e.event_name = .session_start ∨
      e.event_name = .watch_time ∨ e.event_name = .like ∨ e.event_name = .heart ∨
      e.event_name = .session_end := by
    cases e.event_name <;> simp
  constructor
  · intro hne
    rcases hcases with h' | h' | h' | h' | h' | h'
    · exact absurd (h1.mpr (Or.inl h')) hne
    · exact absurd (h1.mpr (Or.inr (Or.inl h'))) hne
    · exact Or.inl h'
    · exact Or.inr (Or.inl h')
    · exact Or.inr (Or.inr h')
    · exact absurd (h1.mpr (Or.inr (Or.inr h'))) hne
  · intro hw hnone
    have ht := h1.mp hnone
    rcases hw with h' | h' | h' <;> rcases ht with t | t | t <;> rw [h'] at t <;>
      exact EventName.noConfusion t

/-- Claim C8 witness at a concrete run and event. -/
theorem c8_witness :
    ((eW0.video_id = none) ↔ (eW0.event_name = .first_login ∨
      eW0.event_name = .session_start ∨ eW0.event_name = .session_end)) ∧
    ((eW0.video_id ≠ none) ↔ (eW0.event_name = .watch_time ∨
      eW0.event_name = .like ∨ eW0.event_name = .heart)) ∧
    ((eW0.value ≠ none) ↔ eW0.event_name = .watch_time) :=
  c8_null_discipline cfgA nowA stA outA (by decide) eW0 (by decide)

/-- Claim C9: every session in the log has between 1 and 10 `watch_time`
events (the chunk count is drawn from `[1, 10]`), so a session is never
empty of watch activity. -/
theorem c9_watch_per_session (cfg : GeneratorConfig) (now : Int) (st : RState)
    (out : Outputs) (h : write_outputs cfg now st = .ok out) :
    ∀ e ∈ out.events,
      1 ≤ ((sessEvents out.events e.session_id).filter
        (fun x => x.event_name == EventName.watch_time)).length ∧
      ((sessEvents out.events e.session_id).filter
        (fun x => x.event_name == EventName.watch_time)).length ≤ 10 ∧
      ∃ w ∈ out.events, w.session_id = e.session_id ∧ w.event_name = .watch_time := by
  intro e he
  obtain ⟨stEv, endEv, mid, hfS, hfE, hfW, hfWT, _, _, _, _, _, _, _, _, hc1, hc10, _⟩ :=
    (global_sid h he).parts
  unfold sessEvents
  rw [hfWT]
  refine ⟨hc1, hc10, ?_⟩
  have hne : mid.filter (fun x => x.event_name == EventName.watch_time) ≠ [] := by
    intro hnil
    rw [hnil] at hc1
    simp at hc1
  obtain ⟨w, hw⟩ := List.exists_mem_of_ne_nil _ hne
  have hw2 := List.mem_filter.mp hw
  have hwl : w ∈ out.events.filter (fun x => x.session_id == e.session_id) := by
    rw [← hfWT] at hw
    exact (List.mem_filter.mp hw).1
  have hwl2 := List.mem_filter.mp hwl
  exact ⟨w, hwl2.1, by simpa using hwl2.2, by simpa using hw2.2⟩

/-- Claim C9 witness at a concrete run and event. -/
theorem c9_witness :
    1 ≤ ((sessEvents outA.events eW0.session_id).filter
      (fun x => x.event_name == EventName.watch_time)).length ∧
    ((sessEvents outA.events eW0.session_id).filter
      (fun x => x.event_name == EventName.watch_time)).length ≤ 10 ∧
    ∃ w ∈ outA.events, w.session_id = eW0.session_id ∧ w.event_name = .watch_time :=
  c9_watch_per_session cfgA nowA stA outA (by decide) eW0 (by decide)

/-- Claim C3 counterexample: in a concrete run, a `like` event of a session
is timestamped strictly after that session's unique `session_end`, so
in-session events are not always between session start and end. -/
theorem c3_counterexample :
    write_outputs cfgA nowA stA = .ok outA ∧
    ∃ y ∈ outA.events, ∃ z ∈ outA.events,
      y.event_name = .session_end ∧ z.event_name = .like ∧
      y.session_id = z.session_id ∧
      (outA.events.filter (fun x => x.session_id == z.session_id &&
        x.event_name == EventName.session_end)).length = 1 ∧
      y.timestamp < z.timestamp := by decide

/-- Claim C3 (amended): every session id has exactly one `session_start`
and exactly one `session_end`; every in-session `watch_time`/`like`/`heart`
event is timestamped strictly after the `session_start`, and those
in-session timestamps are non-decreasing in emission order.  (The original
upper bound — in-session events at or before `session_end` — is false in
the code.) -/
theorem c3_session_bracketing_amended (cfg : GeneratorConfig) (now : Int) (st : RState)
    (out : Outputs) (h : write_outputs cfg now st = .ok out) :
    ∀ e ∈ out.events,
      ∃ stEv endEv,
        (sessEvents out.events e.session_id).filter
          (fun x => x.event_name == EventName.session_start) = [stEv] ∧
        (sessEvents out.events e.session_id).filter
          (fun x => x.event_name == EventName.session_end) = [endEv] ∧
        stEv.timestamp ≤ endEv.timestamp ∧
        (∀ x ∈ out.events, x.session_id = e.session_id →
          (x.event_name = .watch_time ∨ x.event_name = .like ∨ x.event_name = .heart) →
          stEv.timestamp < x.timestamp) ∧
        List.Chain' (fun a b => a.timestamp ≤ b.timestamp)
          ((sessEvents out.events e.session_id).filter
            (fun x => x.event_name == EventName.watch_time ||
              x.event_name == EventName.like || x.event_name == EventName.heart)) := by
  intro e he
  obtain ⟨stEv, endEv, mid, hfS, hfE, hfW, hfWT, hstn, hendn, hstm, hendm, hmid, hch,
    hsl, hse, hc1, hc10, hws⟩ := (global_sid h he).parts
  unfold sessEvents
  refine ⟨stEv, endEv, hfS, hfE, hse, ?_, by rw [hfW]; exact hch⟩
  intro x hx hsid hwlh
  have hxl : x ∈ out.events.filter (fun y => y.session_id == e.session_id) :=
    List.mem_filter.mpr ⟨hx, by simp [hsid]⟩
  have hxm : x ∈ mid := by
    rw [← hfW]
    exact List.mem_filter.mpr ⟨hxl, by rcases hwlh with h' | h' | h' <;> simp [h']⟩
  have := (hmid x hxm).2
  omega

/-- Claim C3 (amended) witness at a concrete run and event. -/
theorem c3_witness :
    ∃ stEv endEv,
      (sessEvents outA.events eW0.session_id).filter
        (fun x => x.event_name == EventName.session_start) = [stEv] ∧
      (sessEvents outA.events eW0.session_id).filter
        (fun x => x.event_name == EventName.session_end) = [endEv] ∧
      stEv.timestamp ≤ endEv.timestamp ∧
      (∀ x ∈ outA.events, x.session_id = eW0.session_id →
        (x.event_name = .watch_time ∨ x.event_name = .like ∨ x.event_name = .heart) →
        stEv.timestamp < x.timestamp) ∧
      List.Chain' (fun a b => a.timestamp ≤ b.timestamp)
        ((sessEvents outA.events eW0.session_id).filter
          (fun x => x.event_name == EventName.watch_time ||
            x.event_name == EventName.like || x.event_name == EventName.heart)) :=
  c3_session_bracketing_amended cfgA nowA stA outA (by decide) eW0 (by decide)

/-- Claim C5: every `session_end` is timestamped at its session's
`session_start` plus the sum of the session's `watch_time` values plus a
slack in `[0, 60]` seconds; hence `session_end` is not before
`session_start`. -/
theorem c5_session_end_sum (cfg : GeneratorConfig) (now : Int) (st : RState)
    (out : Outputs) (h : write_outputs cfg now st = .ok out) :
    ∀ e ∈ out.events, e.event_name = .session_end →
      ∃ s ∈ out.events, s.event_name = .session_start ∧
        s.session_id = e.session_id ∧
        (∃ slack, 0 ≤ slack ∧ slack ≤ 60 ∧
          e.timestamp = s.timestamp + watchSum (sessEvents out.events e.session_id) +
            slack) ∧
        s.timestamp ≤ e.timestamp := by
  intro e he hend
  obtain ⟨stEv, endEv, mid, hfS, hfE, hfW, hfWT, hstn, hendn, hstm, hendm, hmid, hch,
    hsl, hse, _⟩ := (global_sid h he).parts
  have hel : e ∈ out.events.filter (fun x => x.session_id == e.session_id) :=
    List.mem_filter.mpr ⟨he, by simp⟩
  have hee : e ∈ (out.events.filter (fun x => x.session_id == e.session_id)).filter
      (fun x => x.event_name == EventName.session_end) :=
    List.mem_filter.mpr ⟨hel, by simp [hend]⟩
  rw [hfE] at hee
  simp at hee
  have hstl := List.mem_filter.mp hstm
  refine ⟨stEv, hstl.1, hstn, by simpa using hstl.2, ?_, by rw [hee]; exact hse⟩
  obtain ⟨slack, h0, h60, heq⟩ := hsl
  refine ⟨slack, h0, h60, ?_⟩
  unfold sessEvents
  have hts : e.timestamp = endEv.timestamp := by rw [hee]
  rw [hts]
  exact heq

/-- Claim C5 witness at a concrete run and session_end event. -/
theorem c5_witness :
    ∃ s ∈ outA.events, s.event_name = .session_start ∧
      s.session_id = eW4.session_id ∧
      (∃ slack, 0 ≤ slack ∧ slack ≤ 60 ∧
        eW4.timestamp = s.timestamp + watchSum (sessEvents outA.events eW4.session_id) +
          slack) ∧
      s.timestamp ≤ eW4.timestamp :=
  c5_session_end_sum cfgA nowA stA outA (by decide) eW4 (by decide) (by decide)

/-- Claim C10: every `like`/`heart` event immediately follows a
`watch_time` event of the same session in emission order, one second
later, and all in-session watch and engagement events reference videos
from one per-session subset of at most 4 catalog video ids. -/
theorem c10_engagement_adjacency (cfg : GeneratorConfig) (now : Int) (st : RState)
    (out : Outputs) (h : write_outputs cfg now st = .ok out) :
    (∀ (i : Nat) (e : Event), out.events.get? i = some e →
      (e.event_name = .like ∨ e.event_name = .heart) →
      ∃ j w, i = j + 1 ∧ out.events.get? j = some w ∧ w.event_name = .watch_time ∧
        w.session_id = e.session_id ∧ e.timestamp = w.timestamp + 1) ∧
    ∀ e ∈ out.events,
      ∃ ws, ws ⊆ out.videos.map (fun v => v.video_id) ∧ ws.length ≤ 4 ∧
        ∀ x ∈ out.events, x.session_id = e.session_id →
          (x.event_name = .watch_time ∨ x.event_name = .like ∨ x.event_name = .heart) →
          ∃ v ∈ ws, x.video_id = some v := by
  obtain ⟨hchain, hhead⟩ := global_eng h
  constructor
  · intro i e hget heng
    cases i with
    | zero =>
      exfalso
      have hh : out.events.head? = some e := by
        rw [← List.get?_zero]
        exact hget
      exact hhead e (by simp [hh]) heng
    | succ j =>
      obtain ⟨hlt, _⟩ := List.get?_eq_some.mp hget
      have hjlen : j < out.events.length := by omega
      have hgj : out.events.get? j = some (out.events.get ⟨j, hjlen⟩) :=
        List.get?_eq_get hjlen
      have hstep := chain'_get? hchain j (out.events.get ⟨j, hjlen⟩) e hgj hget
      obtain ⟨hw, hsid, hts⟩ := hstep heng
      exact ⟨j, out.events.get ⟨j, hjlen⟩, rfl, hgj, hw, hsid, hts⟩
  · intro e he
    obtain ⟨stEv, endEv, mid, hfS, hfE, hfW, hfWT, hstn, hendn, hstm, hendm, hmid, hch,
      hsl, hse, hc1, hc10, hws⟩ := (global_sid h he).parts
    obtain ⟨ws, hsub, hlen, hmem⟩ := hws
    refine ⟨ws, hsub, hlen, ?_⟩
    intro x hx hsid hwlh
    have hxl : x ∈ out.events.filter (fun y => y.session_id == e.session_id) :=
      List.mem_filter.mpr ⟨hx, by simp [hsid]⟩
    have hxm : x ∈ mid := by
      rw [← hfW]
      exact List.mem_filter.mpr ⟨hxl, by rcases hwlh with h' | h' | h' <;> simp [h']⟩
    exact hmem x hxm

/-- Claim C10 witness at a concrete run. -/
theorem c10_witness :
    (∀ (i : Nat) (e : Event), outA.events.get? i = some e →
      (e.event_name = .like ∨ e.event_name = .heart) →
      ∃ j w, i = j + 1 ∧ outA.events.get? j = some w ∧ w.event_name = .watch_time ∧
        w.session_id = e.session_id ∧ e.timestamp = w.timestamp + 1) ∧
    ∀ e ∈ outA.events,
      ∃ ws, ws ⊆ outA.videos.map (fun v => v.video_id) ∧ ws.length ≤ 4 ∧
        ∀ x ∈ outA.events, x.session_id = e.session_id →
          (x.event_name = .watch_time ∨ x.event_name = .like ∨ x.event_name = .heart) →
          ∃ v ∈ ws, x.video_id = some v :=
  c10_engagement_adjacency cfgA nowA stA outA (by decide)

/-- Claim C4 counterexample: with `days = 7` the initial cursor offset can
be exactly `days*24 = 168` hours (`randint(0, days*24)` is inclusive), so
the offset is not always in the half-open interval `[0, days*24)`. -/
theorem c4_counterexample :
    write_outputs cfg4 nowA st4 = .ok out4 ∧
    (∃ e ∈ out4.events, e.event_name = .first_login ∧
      e.timestamp + 300 = (nowA - 7 * 86400) + (7 * 24) * 3600) ∧
    ∀ k : Int, (nowA - 7 * 86400) + k * 3600 =
        (nowA - 7 * 86400) + (7 * 24) * 3600 → ¬(k < 7 * 24) := by
  refine ⟨by decide, by decide, ?_⟩
  intro k hk
  have hk2 : k = 168 := by omega
  omega

/-- Claim C4 (amended): for every user, the initial session cursor — five
minutes after the user's `first_login`, and equal to the user's first
`session_start` — is the window start plus a whole-hour offset drawn from
the closed interval `[0, days*24]` (`randint` is inclusive on both ends). -/
theorem c4_initial_cursor_amended (cfg : GeneratorConfig) (now : Int) (st : RState)
    (out : Outputs) (h : write_outputs cfg now st = .ok out) :
    ∀ e ∈ out.events, e.event_name = .first_login →
      (∃ k : Int, 0 ≤ k ∧ k ≤ cfg.days * 24 ∧
        e.timestamp + 300 = (now - cfg.days * 86400) + k * 3600) ∧
      ∃ s ∈ out.events, s.event_name = .session_start ∧ s.user_id = e.user_id ∧
        s.timestamp = e.timestamp + 300 := by
  intro e he hfl
  constructor
  · obtain ⟨off, h0, h24, hts⟩ := global_fl h e he hfl
    exact ⟨off, h0, h24, by omega⟩
  · have hu : ∃ x ∈ out.events, x.user_id = e.user_id := ⟨e, he, rfl⟩
    obtain ⟨⟨flEv, stEv, rest, hl, hfn, hsn, hsts, hnofl⟩, _⟩ := global_user h hu
    have hel : e ∈ out.events.filter (fun x => x.user_id == e.user_id) :=
      List.mem_filter.mpr ⟨he, by simp⟩
    rw [hl] at hel
    have he_eq : e = flEv := by
      rcases List.mem_cons.mp hel with h1 | h2
      · exact h1
      · rcases List.mem_cons.mp h2 with h3 | h4
        · exfalso
          rw [h3, hsn] at hfl
          exact EventName.noConfusion hfl
        · exact absurd hfl (hnofl e h4)
    have hstl : stEv ∈ out.events.filter (fun x => x.user_id == e.user_id) := by
      rw [hl]; simp
    have hst2 := List.mem_filter.mp hstl
    refine ⟨stEv, hst2.1, hsn, by simpa using hst2.2, ?_⟩
    rw [he_eq]
    exact hsts

/-- Claim C4 (amended) witness at a concrete run and first_login event. -/
theorem c4_witness :
    (∃ k : Int, 0 ≤ k ∧ k ≤ cfgA.days * 24 ∧
      eW0.timestamp + 300 = (nowA - cfgA.days * 86400) + k * 3600) ∧
    ∃ s ∈ outA.events, s.event_name = .session_start ∧ s.user_id = eW0.user_id ∧
      s.timestamp = eW0.timestamp + 300 :=
  c4_initial_cursor_amended cfgA nowA stA outA (by decide) eW0 (by decide) (by decide)

/-- Claim C6: every user's event block begins with exactly one
`first_login`, immediately followed by that user's first `session_start`
exactly five minutes later; every other of the user's `session_start`
events is strictly later. -/
theorem c6_first_login (cfg : GeneratorConfig) (now : Int) (st : RState)
    (out : Outputs) (h : write_outputs cfg now st = .ok out) (uid : String)
    (hu : ∃ e ∈ out.events, e.user_id = uid) :
    ∃ flEv stEv rest,
      out.events.filter (fun x => x.user_id == uid) = flEv :: stEv :: rest ∧
      flEv.event_name = .first_login ∧
      (∀ x ∈ stEv :: rest, x.event_name ≠ .first_login) ∧
      stEv.event_name = .session_start ∧
      stEv.timestamp = flEv.timestamp + 300 ∧
      ∀ x ∈ rest, x.event_name = .session_start → stEv.timestamp < x.timestamp := by
  obtain ⟨⟨flEv, stEv, rest, hl, hfn, hsn, hsts, hnofl⟩, t0, ps, hsp, hep, hcr⟩ :=
    global_user h hu
  refine ⟨flEv, stEv, rest, hl, hfn, ?_, hsn, hsts, ?_⟩
  · intro x hx
    rcases List.mem_cons.mp hx with h1 | h2
    · rw [h1, hsn]; simp
    · exact hnofl x h2
  · intro x hx hxs
    have hfl_ne : (flEv.event_name == EventName.session_start) = false := by
      rw [hfn]; rfl
    have hsts_eq : startsTs (out.events.filter (fun x => x.user_id == uid)) =
        stEv.timestamp :: startsTs rest := by
      rw [hl]
      unfold startsTs
      rw [List.filter_cons, List.filter_cons]
      simp [hfl_ne, hsn]
    have hchain : List.Chain' (· < ·) (ps.map Prod.fst) := chrono_chain _ _ hcr
    rw [← hsp, hsts_eq] at hchain
    have hpair : List.Pairwise (· < ·) (stEv.timestamp :: startsTs rest) :=
      List.chain'_iff_pairwise.mp hchain
    have hxmem : x.timestamp ∈ startsTs rest := by
      unfold startsTs
      exact List.mem_map.mpr ⟨x, List.mem_filter.mpr ⟨hx, by simp [hxs]⟩, rfl⟩
    exact (List.pairwise_cons.mp hpair).1 _ hxmem

/-- Claim C6 witness at a concrete run. -/
theorem c6_witness :
    ∃ flEv stEv rest,
      outA.events.filter (fun x => x.user_id == mkUid 0) = flEv :: stEv :: rest ∧
      flEv.event_name = .first_login ∧
      (∀ x ∈ stEv :: rest, x.event_name ≠ .first_login) ∧
      stEv.event_name = .session_start ∧
      stEv.timestamp = flEv.timestamp + 300 ∧
      ∀ x ∈ rest, x.event_name = .session_start → stEv.timestamp < x.timestamp :=
  c6_first_login cfgA nowA stA outA (by decide) (mkUid 0) (by decide)

/-- Claim C7: for every user, session start timestamps are strictly
increasing with session index, each session ends no earlier than it
starts, and each next session starts exactly a `[10, 600]`-minute gap
after the previous session's end, hence strictly after it. -/
theorem c7_session_ordering (cfg : GeneratorConfig) (now : Int) (st : RState)
    (out : Outputs) (h : write_outputs cfg now st = .ok out) (uid : String)
    (hu : ∃ e ∈ out.events, e.user_id = uid) :
    List.Chain' (· < ·) (startsTs (out.events.filter (fun x => x.user_id == uid))) ∧
    (startsTs (out.events.filter (fun x => x.user_id == uid))).length =
      (endsTs (out.events.filter (fun x => x.user_id == uid))).length ∧
    (∀ j, j < (startsTs (out.events.filter (fun x => x.user_id == uid))).length →
      (startsTs (out.events.filter (fun x => x.user_id == uid))).getD j 0 ≤
        (endsTs (out.events.filter (fun x => x.user_id == uid))).getD j 0) ∧
    ∀ j, j + 1 < (startsTs (out.events.filter (fun x => x.user_id == uid))).length →
      ∃ g, 10 ≤ g ∧ g ≤ 600 ∧
        (startsTs (out.events.filter (fun x => x.user_id == uid))).getD (j + 1) 0 =
          (endsTs (out.events.filter (fun x => x.user_id == uid))).getD j 0 + g * 60 ∧
        (endsTs (out.events.filter (fun x => x.user_id == uid))).getD j 0 <
          (startsTs (out.events.filter (fun x => x.user_id == uid))).getD (j + 1) 0 := by
  obtain ⟨_, t0, ps, hsp, hep, hcr⟩ := global_user h hu
  rw [hsp, hep]
  refine ⟨chrono_chain _ _ hcr, by simp, ?_, ?_⟩
  · intro j hj
    exact chrono_se _ _ hcr j (by simpa using hj)
  · intro j hj
    obtain ⟨g, hg1, hg2, hgd⟩ := chrono_gapD _ _ hcr j (by simpa using hj)
    exact ⟨g, hg1, hg2, hgd, by omega⟩

/-- Claim C7 witness at a concrete run. -/
theorem c7_witness :
    List.Chain' (· < ·) (startsTs (outA.events.filter (fun x => x.user_id == mkUid 0))) ∧
    (startsTs (outA.events.filter (fun x => x.user_id == mkUid 0))).length =
      (endsTs (outA.events.filter (fun x => x.user_id == mkUid 0))).length ∧
    (∀ j, j < (startsTs (outA.events.filter (fun x => x.user_id == mkUid 0))).length →
      (startsTs (outA.events.filter (fun x => x.user_id == mkUid 0))).getD j 0 ≤
        (endsTs (outA.events.filter (fun x => x.user_id == mkUid 0))).getD j 0) ∧
    ∀ j, j + 1 <
        (startsTs (outA.events.filter (fun x => x.user_id == mkUid 0))).length →
      ∃ g, 10 ≤ g ∧ g ≤ 600 ∧
        (startsTs (outA.events.filter (fun x => x.user_id == mkUid 0))).getD (j + 1) 0 =
          (endsTs (outA.events.filter (fun x => x.user_id == mkUid 0))).getD j 0 +
            g * 60 ∧
        (endsTs (outA.events.filter (fun x => x.user_id == mkUid 0))).getD j 0 <
          (startsTs (outA.events.filter (fun x => x.user_id == mkUid 0))).getD (j + 1) 0 :=
  c7_session_ordering cfgA nowA stA outA (by decide) (mkUid 0) (by decide)

/-- Claim C1 (code bug): the code defines no `ConfigurationError` and
validates nothing.  A run with a zero user count succeeds and writes
empty user/event tables; a run with a zero video count raises `IndexError`
from `random.choice` in the middle of event generation — after the
reference tables were already generated (the same configuration's user
table has one row); a run with a zero day count also succeeds. -/
theorem c1_no_configuration_error :
    ((write_outputs ⟨"data", 7, 0, 1, 42⟩ nowA stA).map
      (fun o => (o.users.length, o.events.length))) = .ok (0, 0) ∧
    (write_outputs ⟨"data", 7, 1, 0, 42⟩ nowA stA =
      .error "IndexError: cannot choose from an empty sequence") ∧
    ((generate_users ⟨"data", 7, 1, 0, 42⟩ nowA stA).map
      (fun p => p.1.length)) = .ok 1 ∧
    ((write_outputs ⟨"data", 0, 1, 1, 42⟩ nowA stA).map
      (fun o => o.users.length)) = .ok 1 := by decide

/-- Claim C2 counterexample: two runs with identical configuration
(directory, days, users, videos and seed — hence identical seeded random
streams) but different wall-clock instants produce different outputs:
`datetime.utcnow()` enters the signup dates and every event timestamp. -/
theorem c2_counterexample :
    write_outputs cfgA nowA stA ≠ write_outputs cfgA (nowA + 86400) stA := by decide

/-- Claim C2 (amended): with the configuration, the seeded random streams
and the generation instant all fixed, the run is a pure function of them;
in particular the output location never influences the generated
contents.  Byte-identical reruns therefore need the generation time fixed
as well as the seed — the seed alone does not suffice. -/
theorem c2_determinism_amended (d1 d2 : String) (days users videos seed : Int)
    (now : Int) (st : RState) :
    write_outputs ⟨d1, days, users, videos, seed⟩ now st =
      write_outputs ⟨d2, days, users, videos, seed⟩ now st := rfl
